import Mathlib

/-!
# Teleport: dialect catalog and extract-configuration DSL

A shallow embedding of `dialect.go`, `database_configuration.go` and
`endpoint_configuration.go`, with the library calls they rely on
(`fmt.Sprintf`, `starlark.UnpackArgs`, `starlark.UnpackPositionalArgs`)
modelled as far as the sources use them.
-/

namespace Teleport

/-! ## `fmt.Sprintf` for string operands -/

/-- Scanner state of the format string: plain text, just after `%`, inside
`%[`, and just after `%[n]` (`none` when `n` names no operand). -/
inductive FmtState where
  | text
  | percent
  | index (n : Nat)
  | indexed (n : Option Nat)
  deriving DecidableEq, Repr

/-- Operand number `k` (0-based) rendered under verb `verb`.  Verbs `s` and `v`
print a string operand as it is; a missing operand and a verb that does not
apply to strings print the markers `fmt` documents. -/
def fmtOperand (args : List String) (k : Nat) (verb : Char) : List Char :=
  match args.get? k with
  | some a =>
    if verb = 's' ∨ verb = 'v' then a.data
    else '%' :: '!' :: verb :: ("(string=" ++ a ++ ")").data
  | none => '%' :: '!' :: verb :: "(MISSING)".data

/-- The operands left over, as the `%!(EXTRA ...)` marker lists them. -/
def fmtExtra : List String → List Char
  | [] => []
  | [a] => ("string=" ++ a).data
  | a :: b :: rest => ("string=" ++ a ++ ", ").data ++ fmtExtra (b :: rest)

/-- The formatting loop of `fmt.Sprintf` over the characters of the format,
for string operands.  Handled: literal text, `%%`, a verb taking the next
operand, and a verb with an explicit operand index `%[n]`, after which the
next operand is number `n+1`; operands left unused are reported unless an
explicit index was used (`reordered`).  Flags, width, precision and a
malformed index are not modelled; no format in the sources has them. -/
def sprintfGo (args : List String) : FmtState → Bool → Nat → List Char → List Char
  | .text, reordered, k, [] =>
    if !reordered && k < args.length then
      "%!(EXTRA ".data ++ fmtExtra (args.drop k) ++ [')']
    else []
  | .text, r, k, c :: cs =>
    if c = '%' then sprintfGo args .percent r k cs
    else c :: sprintfGo args .text r k cs
  | .percent, _, _, [] => "%!(NOVERB)".data
  | .percent, r, k, c :: cs =>
    if c = '%' then '%' :: sprintfGo args .text r k cs
    else if c = '[' then sprintfGo args (.index 0) true k cs
    else fmtOperand args k c ++ sprintfGo args .text r (k + 1) cs
  | .index _, _, _, [] => "%!(NOVERB)".data
  | .index n, r, k, c :: cs =>
    if c = ']' then
      if 1 ≤ n ∧ n ≤ args.length then sprintfGo args (.indexed (some n)) r k cs
      else sprintfGo args (.indexed none) r k cs
    else if c.isDigit then sprintfGo args (.index (10 * n + (c.toNat - 48))) r k cs
    else sprintfGo args (.indexed none) r k cs
  | .indexed _, _, _, [] => "%!(NOVERB)".data
  | .indexed (some n), r, _, c :: cs =>
    fmtOperand args (n - 1) c ++ sprintfGo args .text r n cs
  | .indexed none, r, k, c :: cs =>
    '%' :: '!' :: c :: "(BADINDEX)".data ++ sprintfGo args .text r k cs

/-- Model of `fmt.Sprintf(format, args...)` with string operands. -/
def Sprintf (format : String) (args : List String) : String :=
  ⟨sprintfGo args .text false 0 format.data⟩

/-! ## The dialect catalog (`dialect.go`) -/

/-- Record `Dialect` of `dialect.go`. -/
structure Dialect where
  Key : String
  HumanName : String
  TerminalCommand : String
  CreateStagingTableQuery : String
  FullLoadQuery : String
  ModifiedOnlyLoadQuery : String
  SetSchemaQuery : String
  deriving DecidableEq, Repr

def mysql : Dialect := ⟨"mysql", "MySQL", "", "", "", "", ""⟩

def postgres : Dialect :=
  ⟨"postgres", "PostgreSQL", "psql",
   "CREATE TABLE %[2]s AS TABLE %[1]s WITH NO DATA",
   "\n\t\t\tDELETE FROM %[1]s;\n\t\t\tINSERT INTO %[1]s SELECT * FROM %[2]s\n\t\t",
   "\n\t\t\tDELETE FROM %[1]s WHERE %[3]s IN (SELECT %[3]s FROM %[2]s);\n\t\t\tINSERT INTO %[1]s SELECT * FROM %[2]s;\n\t\t\tDROP TABLE %[2]s\n\t\t",
   "SET search_path TO %s"⟩

def redshift : Dialect :=
  ⟨"redshift", "AWS RedShift", "psql",
   "CREATE TEMPORARY TABLE %[2]s (LIKE %[1]s)",
   "\n\t\t\tDELETE FROM %[1]s;\n\t\t\tINSERT INTO %[1]s SELECT * FROM %[2]s\n\t\t",
   "\n\t\t\tDELETE FROM %[1]s USING %[2]s WHERE %[1]s.%[3]s = %[2]s.%[3]s;\n\t\t\tINSERT INTO %[1]s SELECT * FROM %[2]s\n\t\t",
   postgres.SetSchemaQuery⟩

def snowflake : Dialect :=
  ⟨"snowflake", "Snowflake", "psql",
   "CREATE TEMPORARY TABLE %[2]s LIKE %[1]s",
   "\n\t\t\tTRUNCATE TABLE %[1]s;\n\t\t\tINSERT INTO %[1]s SELECT * FROM %[2]s\n\t\t",
   "\n\t\t\tMERGE INTO %[1]s USING %[2]s ON %[1]s.%[3]s = %[2]s.%[3]s;\n\t\t",
   "USE SCHEMA %s"⟩

def sqlite : Dialect :=
  ⟨"sqlite", "SQLite3", "",
   "CREATE TABLE %[2]s AS SELECT * FROM %[1]s LIMIT 0",
   postgres.FullLoadQuery, postgres.ModifiedOnlyLoadQuery, ""⟩

/-- Canonical column types of package `schema`; the test file names these
four. -/
inductive DataType where
  | INTEGER
  | STRING
  | BOOLEAN
  | DECIMAL
  deriving DecidableEq, Repr

/-- Option keys of a column (package `schema`). -/
inductive Option_ where
  | BYTES
  | LENGTH
  | PRECISION
  | SCALE
  | COMPUTED
  deriving DecidableEq, Repr

/-- Struct `schema.Column`: `Column{Name, DataType, Options}`; the Go map
`Options` is kept as its key/value pairs. -/
structure Column where
  Name : String
  DataType : DataType
  Options : List (Option_ × Int)
  deriving DecidableEq, Repr

/-- Struct `schema.Table`: `Table{Source, Name, Columns}`. -/
structure Table where
  Source : String
  Name : String
  Columns : List Column
  deriving DecidableEq, Repr

/-- The part of `schema.Database` the dialect code touches: the `Driver`
field and the `EscapeIdentifier` method, whose body is outside the sources and
is therefore carried as a function. -/
structure Database where
  Driver : String
  URL : String
  EscapeIdentifier : String → String

/-- Struct `StrategyOptions`, as `strategyOpts` fills it. -/
structure StrategyOptions where
  Strategy : String
  PrimaryKey : String
  ModifiedAtColumn : String
  HoursAgo : String
  deriving DecidableEq, Repr

/-- Function `GetDialect` of `dialect.go`: a `switch` on `db.Driver`. -/
def GetDialect (db : Database) : Dialect :=
  if db.Driver = "postgres" then postgres
  else if db.Driver = "sqlite3" then sqlite
  else if db.Driver = "mysql" then mysql
  else if db.Driver = "redshift" then redshift
  else if db.Driver = "snowflake" then snowflake
  else mysql

/-- The three `strings.Builder`s of `getSnowFlakeModifiedOnlyLoadQuery`. -/
structure MergeBuilders where
  q : String
  targetCol : String
  targetVal : String
  deriving DecidableEq, Repr

/-- One pass of the `for i, c := range destinationTable.Columns` body;
`len` is `len(destinationTable.Columns)`. -/
def mergeLoopBody (db : Database) (stagingTableName : String) (destinationTable : Table)
    (len : Nat) (b : MergeBuilders) (i : Nat) (c : Column) : MergeBuilders :=
  let q1 := b.q ++ Sprintf "%[1]s.%[3]s = %[2]s.%[3]s"
    [db.EscapeIdentifier destinationTable.Name, db.EscapeIdentifier stagingTableName,
     db.EscapeIdentifier c.Name]
  let col1 := b.targetCol ++ db.EscapeIdentifier c.Name
  let val1 := b.targetVal ++ Sprintf "%s.%s"
    [db.EscapeIdentifier stagingTableName, db.EscapeIdentifier c.Name]
  if (i : Int) ≠ (len : Int) - 1 then
    ⟨q1 ++ ", \n", col1 ++ ", \n", val1 ++ ", \n"⟩
  else
    ⟨q1, col1, val1⟩

/-- The `range` loop: the columns still to visit, the index of the first of
them, and the builders so far. -/
def mergeLoop (db : Database) (stagingTableName : String) (destinationTable : Table)
    (len : Nat) : List Column → Nat → MergeBuilders → MergeBuilders
  | [], _, b => b
  | c :: cs, i, b =>
    mergeLoop db stagingTableName destinationTable len cs (i + 1)
      (mergeLoopBody db stagingTableName destinationTable len b i c)

/-- Function `getSnowFlakeModifiedOnlyLoadQuery` of `dialect.go`. -/
def getSnowFlakeModifiedOnlyLoadQuery (db : Database) (stagingTableName : String)
    (destinationTable : Table) (strategyOpts : StrategyOptions) : String :=
  let q0 := Sprintf "MERGE INTO %[1]s USING %[2]s ON %[1]s.%[3]s = %[2]s.%[3]s\nWHEN MATCHED THEN UPDATE SET\n"
    [db.EscapeIdentifier destinationTable.Name, db.EscapeIdentifier stagingTableName,
     db.EscapeIdentifier strategyOpts.PrimaryKey]
  let b := mergeLoop db stagingTableName destinationTable destinationTable.Columns.length
    destinationTable.Columns 0 ⟨q0, "", ""⟩
  b.q ++ ("\nWHEN NOT MATCHED THEN INSERT (\n" ++ b.targetCol ++ ") \n VALUES (\n"
    ++ b.targetVal ++ ")")

/-! ## Whitespace normalisation -/

/-- Predicate `unicode.IsSpace`. -/
def isSpace (c : Char) : Bool :=
  c = '\t' || c = '\n' || c.toNat = 0x0B || c.toNat = 0x0C || c = '\r' || c = ' '
    || c.toNat = 0x85 || c.toNat = 0xA0 || c.toNat = 0x1680
    || (0x2000 ≤ c.toNat && c.toNat ≤ 0x200A)
    || c.toNat = 0x2028 || c.toNat = 0x2029 || c.toNat = 0x202F
    || c.toNat = 0x205F || c.toNat = 0x3000

/-- Scanner of `strings.Fields`: the fields completed so far and the field
being read. -/
structure FieldScan where
  done : List (List Char)
  cur : List Char
  deriving DecidableEq, Repr

/-- One character of `strings.Fields`: white space closes the field being
read, if any; any other character extends it. -/
def fieldsStep (st : FieldScan) (c : Char) : FieldScan :=
  if isSpace c then
    if st.cur = [] then st else ⟨st.done ++ [st.cur], []⟩
  else ⟨st.done, st.cur ++ [c]⟩

/-- End of input: the field being read, if any, is the last one. -/
def fieldsFinish (st : FieldScan) : List (List Char) :=
  if st.cur = [] then st.done else st.done ++ [st.cur]

/-- Function `strings.Fields`: the maximal runs of non-space characters. -/
def Fields (s : String) : List String :=
  (fieldsFinish (s.data.foldl fieldsStep ⟨[], []⟩)).map String.mk

/-- Modelled from the spec: whitespace normalisation, the helper `squish` the
test file calls and the sources do not define: every run of white space
becomes one blank, and leading and trailing white space is dropped. -/
def squish (s : String) : String :=
  " ".intercalate (Fields s)

/-! ## Starlark values and argument unpacking -/

/-- A `*starlark.Function`: a function defined by the script, opaque to the
engine. -/
structure Function where
  name : String
  deriving DecidableEq, Repr

/-- Values a script can pass to a builtin (`starlark.Value`). -/
inductive Value where
  | none
  | bool (b : Bool)
  | int (i : Int)
  | str (s : String)
  | list (xs : List Value)
  | dict (entries : List (Value × Value))
  | func (f : Function)
  | builtin (name : String)

/-- Method `Value.Type()`: the Starlark name of the value's type. -/
def Value.Type : Value → String
  | .none => "NoneType"
  | .bool _ => "bool"
  | .int _ => "int"
  | .str _ => "string"
  | .list _ => "list"
  | .dict _ => "dict"
  | .func _ => "function"
  | .builtin _ => "builtin_function_or_method"

/-- The Go dynamic type of a value, as a failed type assertion prints it. -/
def Value.goType : Value → String
  | .none => "starlark.NoneType"
  | .bool _ => "starlark.Bool"
  | .int _ => "starlark.Int"
  | .str _ => "starlark.String"
  | .list _ => "*starlark.List"
  | .dict _ => "*starlark.Dict"
  | .func _ => "*starlark.Function"
  | .builtin _ => "*starlark.Builtin"

mutual
/-- Method `Value.String()`: the value as Starlark prints it (string escapes
are not modelled). -/
def Value.String : Value → String
  | .none => "None"
  | .bool b => if b then "True" else "False"
  | .int i => toString i
  | .str s => "\"" ++ s ++ "\""
  | .list xs => "[" ++ Value.listString xs ++ "]"
  | .dict es => "\x7b" ++ Value.dictString es ++ "\x7d"
  | .func f => "<function " ++ f.name ++ ">"
  | .builtin n => "<built-in function " ++ n ++ ">"
/-- Elements of a list, comma separated. -/
def Value.listString : List Value → String
  | [] => ""
  | [x] => x.String
  | x :: y :: xs => x.String ++ ", " ++ Value.listString (y :: xs)
/-- Entries of a dict, comma separated. -/
def Value.dictString : List (Value × Value) → String
  | [] => ""
  | [(k, v)] => k.String ++ ": " ++ v.String
  | (k, v) :: e :: es => k.String ++ ": " ++ v.String ++ ", " ++ Value.dictString (e :: es)
end

/-- Method `GoString()` of a `starlark.String`; the zero value of the
variable (the empty string) when nothing was unpacked into it. -/
def goStringOf : Option Value → String
  | some (.str s) => s
  | _ => ""

/-- The `starlark.Int` held by a variable; zero when nothing was unpacked
into it. -/
def starlarkIntOf : Option Value → Int
  | some (.int i) => i
  | _ => 0

/-- The `*starlark.Function` held by a variable. -/
def functionOf : Option Value → Option Function
  | some (.func f) => some f
  | _ => Option.none

/-- Result of a Go call that may fail in two ways: `error` is a returned
`error` value, `panic` a run-time panic (failed type assertion, index out of
range), which no caller in the sources recovers. -/
inductive Outcome (α : Type) where
  | ok (a : α)
  | error (msg : String)
  | panic (msg : String)

/-- Whether the call returned normally. -/
def Outcome.isOk {α : Type} : Outcome α → Bool
  | .ok _ => true
  | _ => false

/-- Whether the call returned an `error`. -/
def Outcome.isError {α : Type} : Outcome α → Bool
  | .error _ => true
  | _ => false

/-- Whether the call panicked. -/
def Outcome.isPanic {α : Type} : Outcome α → Bool
  | .panic _ => true
  | _ => false

/-- Sequencing of calls: an error or a panic ends the run. -/
def Outcome.bind {α β : Type} (x : Outcome α) (f : α → Outcome β) : Outcome β :=
  match x with
  | .ok a => f a
  | .error e => .error e
  | .panic e => .panic e

/-- The Go types of the variables the sources hand to the unpackers. -/
inductive ParamKind where
  | starlarkString
  | starlarkInt
  | goString
  | function
  | dict
  deriving DecidableEq, Repr

/-- The type name an unpacking error asks for. -/
def ParamKind.typeName : ParamKind → String
  | .starlarkString => "string"
  | .starlarkInt => "int"
  | .goString => "string"
  | .function => "function"
  | .dict => "dict"

/-- Function `unpackOneArg` of go.starlark.net: the value is stored when its
dynamic type fits the variable, and is a type error otherwise. -/
def unpackOneArg (v : Value) (p : ParamKind) : Except String Value :=
  match p, v with
  | .starlarkString, .str _ => .ok v
  | .goString, .str _ => .ok v
  | .starlarkInt, .int _ => .ok v
  | .function, .func _ => .ok v
  | .dict, .dict _ => .ok v
  | _, _ => .error ("got " ++ v.Type ++ ", want " ++ p.typeName)

/-- The loop `for i, arg := range args` of `UnpackPositionalArgs`, from
position `i`. -/
def unpackPositional (fnname : String) : Nat → List Value → List ParamKind →
    Except String (List Value)
  | _, [], _ => .ok []
  | _, _ :: _, [] => .ok []
  | i, a :: rest, p :: ps =>
    match unpackOneArg a p with
    | .error e => .error (fnname ++ ": for parameter " ++ toString (i + 1) ++ ": " ++ e)
    | .ok v =>
      match unpackPositional fnname (i + 1) rest ps with
      | .error e => .error e
      | .ok vs => .ok (v :: vs)

/-- Function `starlark.UnpackPositionalArgs(fnname, args, kwargs, min, vars...)`:
the values unpacked into the first `len(args)` variables. -/
def UnpackPositionalArgs (fnname : String) (args : List Value)
    (kwargs : List (String × Value)) (min : Nat) (vars : List ParamKind) :
    Except String (List Value) :=
  if kwargs.length > 0 then
    .error (fnname ++ ": unexpected keyword arguments")
  else if args.length < min then
    .error (fnname ++ ": got " ++ toString args.length ++ " arguments, want "
      ++ (if min < vars.length then "at least " else "") ++ toString min)
  else if args.length > vars.length then
    .error (fnname ++ ": got " ++ toString args.length ++ " arguments, want "
      ++ (if vars.length > min then "at most " else "") ++ toString vars.length)
  else unpackPositional fnname 0 args vars

/-- Index and variable type of the parameter called `name`. -/
def findParam : List (String × ParamKind) → String → Nat → Option (Nat × ParamKind)
  | [], _, _ => Option.none
  | (n, p) :: rest, name, i => if n = name then some (i, p) else findParam rest name (i + 1)

/-- Positional part of `UnpackArgs`: argument `i` goes to parameter `i`. -/
def unpackArgsPositional (fnname : String) : List Value → List (String × ParamKind) →
    Except String (List (Option Value))
  | [], pairs => .ok (pairs.map fun _ => Option.none)
  | _ :: _, [] => .ok []
  | a :: rest, (n, p) :: pairs =>
    match unpackOneArg a p with
    | .error e => .error (fnname ++ ": for parameter " ++ n ++ ": " ++ e)
    | .ok v =>
      match unpackArgsPositional fnname rest pairs with
      | .error e => .error e
      | .ok slots => .ok (some v :: slots)

/-- Keyword part of `UnpackArgs` (the loop `kwloop`): `slots` holds, per
parameter, the value unpacked so far. -/
def unpackArgsKeywords (fnname : String) (pairs : List (String × ParamKind)) :
    List (String × Value) → List (Option Value) → Except String (List (Option Value))
  | [], slots => .ok slots
  | (name, arg) :: rest, slots =>
    match findParam pairs name 0 with
    | Option.none => .error (fnname ++ ": unexpected keyword argument \"" ++ name ++ "\"")
    | some (i, p) =>
      if (slots.getD i Option.none).isSome then
        .error (fnname ++ ": got multiple values for keyword argument \"" ++ name ++ "\"")
      else
        match unpackOneArg arg p with
        | .error e => .error (fnname ++ ": for parameter \"" ++ name ++ "\": " ++ e)
        | .ok v => unpackArgsKeywords fnname pairs rest (slots.set i (some v))

/-- Last part of `UnpackArgs`: the first parameter left without a value. -/
def firstMissing : List (String × ParamKind) → List (Option Value) → Option String
  | (n, _) :: pairs, s :: slots =>
    if s.isSome then firstMissing pairs slots else some n
  | _, _ => Option.none

/-- Function `starlark.UnpackArgs(fnname, args, kwargs, pairs...)` for
parameters that are all required (no name in the sources ends in `?`): per
parameter, the value unpacked into its variable.  Spelling hints in the
message for an unknown keyword are left out. -/
def UnpackArgs (fnname : String) (args : List Value) (kwargs : List (String × Value))
    (pairs : List (String × ParamKind)) : Except String (List (Option Value)) :=
  if args.length > pairs.length then
    .error (fnname ++ ": got " ++ toString args.length ++ " arguments, want at most "
      ++ toString pairs.length)
  else
    match unpackArgsPositional fnname args pairs with
    | .error e => .error e
    | .ok slots =>
      match unpackArgsKeywords fnname pairs kwargs slots with
      | .error e => .error e
      | .ok slots1 =>
        match firstMissing pairs slots1 with
        | some n => .error (fnname ++ ": missing argument for " ++ n)
        | Option.none => .ok slots1

/-- The call `strconv.Atoi(x.String())` for a `starlark.Int` `x`: the
decimal rendering parses back to `x` when `x` fits Go's 64-bit `int`, and
is a range error otherwise. -/
def atoiOfInt (x : Int) : Except String Int :=
  if -9223372036854775808 ≤ x ∧ x ≤ 9223372036854775807 then .ok x
  else .error ("strconv.Atoi: parsing \"" ++ toString x ++ "\": value out of range")

/-- The call `strconv.Atoi(v.String())` for any value: only an `Int` prints
as a decimal numeral. -/
def atoiOfValue (v : Value) : Except String Int :=
  match v with
  | .int i => atoiOfInt i
  | _ => .error ("strconv.Atoi: parsing \"" ++ v.String ++ "\": invalid syntax")

/-! ## Extract configuration of a table (`database_configuration.go`) -/

/-- Modelled from the spec: the load strategy constant `Full`, declared
outside the sources; `readTableExtractConfiguration` spells it out. -/
def Full : String := "Full"

/-- Modelled from the spec: the load strategy constant `Incremental`. -/
def Incremental : String := "Incremental"

/-- Modelled from the spec: the load strategy constant `ModifiedOnly`. -/
def ModifiedOnly : String := "ModifiedOnly"

/-- Struct `LoadOptions`, in the field order of the composite literal in
`setLoadStrategy`. -/
structure LoadOptions where
  Strategy : String
  PrimaryKey : String
  ModifiedAtColumn : String
  GoBackHours : Int
  deriving DecidableEq, Repr

/-- Struct `ComputedColumn`; its field `Type` is written `Type_`. -/
structure ComputedColumn where
  Name : String
  Type_ : String
  Function : Function
  deriving DecidableEq, Repr

/-- Struct `TableExtract`; the map `ColumnTransforms` is kept as its entries,
the nil map being the empty list. -/
structure TableExtract where
  LoadOptions : LoadOptions
  ColumnTransforms : List (String × List Function)
  ComputedColumns : List ComputedColumn
  deriving DecidableEq, Repr

/-- The zero value `TableExtract{}`. -/
def TableExtract.zero : TableExtract := ⟨⟨"", "", "", 0⟩, [], []⟩

/-- Read of a Go map: `m[k]`, with `zero` for an absent key. -/
def mapGet {ν : Type} (m : List (String × ν)) (k : String) (zero : ν) : ν :=
  match m with
  | [] => zero
  | (k1, v) :: rest => if k1 = k then v else mapGet rest k zero

/-- Whether a Go map holds key `k`. -/
def mapHas {ν : Type} (m : List (String × ν)) (k : String) : Bool :=
  match m with
  | [] => false
  | (k1, _) :: rest => if k1 = k then true else mapHas rest k

/-- Write to a Go map: `m[k] = v`. -/
def mapSet {ν : Type} (m : List (String × ν)) (k : String) (v : ν) : List (String × ν) :=
  match m with
  | [] => [(k, v)]
  | (k1, v1) :: rest => if k1 = k then (k, v) :: rest else (k1, v1) :: mapSet rest k v

/-- The `starlarkstruct.Struct` that `newTableExtract` returns: its
constructor name and the address of the `TableExtract` its three members
(`LoadStrategy`, `TransformColumn`, `ComputeColumn`) are bound to. -/
structure Struct where
  constructor : String
  target : Nat
  deriving DecidableEq, Repr

/-- What a configuration script acts on: the `TableExtract` values allocated
so far (an address is a position in `heap`), the map
`databaseExtract.TableExtracts` of addresses, and the thread local
`tableStruct` of the one thread `GetThread()` hands out. -/
structure ScriptState where
  heap : List TableExtract
  TableExtracts : List (String × Nat)
  tableStruct : Option Struct
  deriving DecidableEq, Repr

/-- State before the script runs: `DatabaseExtract{}` with an empty map. -/
def ScriptState.init : ScriptState := ⟨[], [], Option.none⟩

/-- The expression `GetThread().Local("tableStruct").(*starlarkstruct.Struct)`:
the type assertion panics on an unset local. -/
def localTableStruct (tableStruct : Option Struct) : Outcome Struct :=
  match tableStruct with
  | some h => .ok h
  | Option.none => .panic "interface conversion: interface is nil, not *starlarkstruct.Struct"

/-- Method `TableExtract.setLoadStrategy`: the updated `TableExtract` and the
returned struct.  The `switch` head indexes `args[0]` and asserts it to be a
`starlark.String`, both unchecked.  A variable no unpacker wrote to keeps its
zero value: the empty string, and the `starlark.Int` that prints as `0`. -/
def TableExtract.setLoadStrategy (tableExtract : TableExtract) (tableStruct : Option Struct)
    (args : List Value) (kwargs : List (String × Value)) : Outcome (TableExtract × Struct) :=
  match args with
  | [] => .panic "runtime error: index out of range [0] with length 0"
  | .str s :: _ =>
    let unpacked : Except String (List (Option Value)) :=
      if s = Full then
        match UnpackPositionalArgs "LoadStrategy" args kwargs 1 [.starlarkString] with
        | .error e => .error e
        | .ok vs => .ok (vs.map some)
      else if s = ModifiedOnly then
        UnpackArgs "LoadStrategy" args kwargs
          [("strategy", .starlarkString), ("primary_key", .starlarkString),
           ("modified_at_column", .starlarkString), ("go_back_hours", .starlarkInt)]
      else if s = Incremental then
        UnpackArgs "LoadStrategy" args kwargs
          [("strategy", .starlarkString), ("primary_key", .starlarkString)]
      else
        .error "LoadStrategy(): invalid strategy, allowed values: Full, ModifiedOnly, Incremental"
    match unpacked with
    | .error e => .error e
    | .ok slots =>
      let strategy := goStringOf (slots.getD 0 Option.none)
      let primaryKey := goStringOf (slots.getD 1 Option.none)
      let ModifiedAtColumn := goStringOf (slots.getD 2 Option.none)
      let goBackHours := starlarkIntOf (slots.getD 3 Option.none)
      match atoiOfInt goBackHours with
      | .error e => .error ("LoadStrategy(): go_back_hours error: " ++ e)
      | .ok goBackHoursInt =>
        (localTableStruct tableStruct).bind fun h =>
          .ok ({ tableExtract with
                 LoadOptions := ⟨strategy, primaryKey, ModifiedAtColumn, goBackHoursInt⟩ }, h)
  | v :: _ =>
    .panic ("interface conversion: starlark.Value is " ++ v.goType ++ ", not starlark.String")

/-- Method `TableExtract.addColumnTransform`. -/
def TableExtract.addColumnTransform (tableExtract : TableExtract) (tableStruct : Option Struct)
    (args : List Value) (kwargs : List (String × Value)) : Outcome (TableExtract × Struct) :=
  match UnpackPositionalArgs "TransformColumn" args kwargs 2 [.goString, .function] with
  | .error e => .error e
  | .ok vs =>
    let column := goStringOf (vs.get? 0)
    match functionOf (vs.get? 1) with
    | Option.none => .panic "unreachable: the second variable holds a function"
    | some function =>
      (localTableStruct tableStruct).bind fun h =>
        .ok ({ tableExtract with
               ColumnTransforms := mapSet tableExtract.ColumnTransforms column
                 (mapGet tableExtract.ColumnTransforms column [] ++ [function]) }, h)

/-- Method `TableExtract.addComputedColumn`. -/
def TableExtract.addComputedColumn (tableExtract : TableExtract) (tableStruct : Option Struct)
    (args : List Value) (kwargs : List (String × Value)) : Outcome (TableExtract × Struct) :=
  match UnpackPositionalArgs "ComputeColumn" args kwargs 2 [.goString, .function, .goString] with
  | .error e => .error e
  | .ok vs =>
    let name := goStringOf (vs.get? 0)
    let columnType := goStringOf (vs.get? 2)
    let columnType := if columnType = "" then "TEXT" else columnType
    match functionOf (vs.get? 1) with
    | Option.none => .panic "unreachable: the second variable holds a function"
    | some function =>
      (localTableStruct tableStruct).bind fun h =>
        .ok ({ tableExtract with
               ComputedColumns :=
                 tableExtract.ComputedColumns ++ [⟨name, columnType, function⟩] }, h)

/-- Method `DatabaseExtract.newTableExtract`, the builtin `Table`: a fresh
`TableExtract{}` is allocated, registered under the name, and the struct
bound to it becomes the thread local `tableStruct`. -/
def DatabaseExtract.newTableExtract (st : ScriptState) (args : List Value)
    (kwargs : List (String × Value)) : Outcome (ScriptState × Struct) :=
  match UnpackPositionalArgs "Table" args kwargs 1 [.starlarkString] with
  | .error e => .error e
  | .ok vs =>
    let name := goStringOf (vs.get? 0)
    let sstruct : Struct := ⟨name, st.heap.length⟩
    .ok ({ heap := st.heap ++ [TableExtract.zero],
           TableExtracts := mapSet st.TableExtracts name st.heap.length,
           tableStruct := some sstruct }, sstruct)

/-- A call `recv.member(args, kwargs)` on a struct made by `Table`: the member
is the method value bound to the struct's own `TableExtract`. -/
def Struct.callMember (st : ScriptState) (recv : Struct) (member : String)
    (args : List Value) (kwargs : List (String × Value)) : Outcome (ScriptState × Struct) :=
  match st.heap.get? recv.target with
  | Option.none => .panic "unreachable: a struct is bound to an allocated TableExtract"
  | some tableExtract =>
    let r :=
      if member = "LoadStrategy" then tableExtract.setLoadStrategy st.tableStruct args kwargs
      else if member = "TransformColumn" then
        tableExtract.addColumnTransform st.tableStruct args kwargs
      else if member = "ComputeColumn" then
        tableExtract.addComputedColumn st.tableStruct args kwargs
      else .error ("struct has no ." ++ member ++ " field or method")
    r.bind fun (te, h) => .ok ({ st with heap := st.heap.set recv.target te }, h)

/-- The part of a configuration script that talks to the table DSL:
variables, `Table(...)`, and member calls on a struct. -/
inductive Expr where
  | var (x : String)
  | table (args : List Value) (kwargs : List (String × Value))
  | call (recv : Expr) (member : String) (args : List Value) (kwargs : List (String × Value))

/-- Statements of a configuration script: `x = e` and `e`. -/
inductive Stmt where
  | assign (x : String) (e : Expr)
  | expr (e : Expr)

/-- Evaluation of an expression to a struct. -/
def evalExpr (env : List (String × Struct)) (st : ScriptState) :
    Expr → Outcome (ScriptState × Struct)
  | .var x =>
    if mapHas env x then .ok (st, mapGet env x ⟨"", 0⟩)
    else .error ("undefined: " ++ x)
  | .table args kwargs => DatabaseExtract.newTableExtract st args kwargs
  | .call recv member args kwargs =>
    (evalExpr env st recv).bind fun (st1, h) => h.callMember st1 member args kwargs

/-- Execution of the statements in order, as `starlark.ExecFile` runs a
file. -/
def execStmts : List Stmt → List (String × Struct) → ScriptState → Outcome ScriptState
  | [], _, st => .ok st
  | .assign x e :: rest, env, st =>
    (evalExpr env st e).bind fun (st1, h) => execStmts rest (mapSet env x h) st1
  | .expr e :: rest, env, st =>
    (evalExpr env st e).bind fun (st1, _) => execStmts rest env st1

/-- The `TableExtract` registered under `name`: `databaseExtract.TableExtracts[name]`,
absent when the map yields nil. -/
def ScriptState.lookup (st : ScriptState) (name : String) : Option TableExtract :=
  if mapHas st.TableExtracts name then st.heap.get? (mapGet st.TableExtracts name 0)
  else Option.none

/-- The default of `readTableExtractConfiguration`: `TableExtract{}` with
`LoadOptions.Strategy = "Full"`. -/
def defaultTableExtract : TableExtract :=
  { TableExtract.zero with LoadOptions := { TableExtract.zero.LoadOptions with Strategy := "Full" } }

/-- Function `readTableExtractConfiguration`.  `portFile` is the result of
`findTableExtractPortFile(path)`, `execFile` what `starlark.ExecFile` makes of
that file, started on an empty `DatabaseExtract`.  The result `ok t` stands
for a nil error with `*tableExtractptr = t`. -/
def readTableExtractConfiguration (portFile : Except String String)
    (execFile : String → Outcome ScriptState) (tableName : String) : Outcome TableExtract :=
  match portFile with
  | .error _ => .ok defaultTableExtract
  | .ok file =>
    (execFile file).bind fun databaseExtract =>
      match databaseExtract.lookup tableName with
      | some tableExtract => .ok tableExtract
      | Option.none =>
        match databaseExtract.lookup "*" with
        | some tableExtract => .ok tableExtract
        | Option.none => .ok defaultTableExtract

/-! ## Extract configuration of an API endpoint (`endpoint_configuration.go`) -/

/-- What the endpoint builtins call outside the sources: `os.ExpandEnv`, and
`prependStarlarkPositionToError(thread, err)` as a map on error messages. -/
structure Host where
  ExpandEnv : String → String
  prependStarlarkPositionToError : String → String

/-- Struct `Endpoint`; maps are kept as their entries, a nil pointer as
`none`. -/
structure Endpoint where
  URL : String
  Method : String
  BasicAuth : Option (List (String × String))
  Headers : List (String × String)
  ResponseType : String
  Functions : List (String × Value)
  Transform : Option Function
  Paginate : Option Function
  TableDefinition : Option (List (String × String))
  ErrorHandling : Option (List (String × Int))
  LoadOptions : LoadOptions

/-- The zero value `Endpoint{}`. -/
def Endpoint.zero : Endpoint :=
  ⟨"", "", Option.none, [], "", [], Option.none, Option.none, Option.none, Option.none,
   ⟨"", "", "", 0⟩⟩

/-- Method `Endpoint.get`, the builtin `Get`. -/
def Endpoint.get (endpoint : Endpoint) (host : Host) (args : List Value)
    (kwargs : List (String × Value)) : Outcome Endpoint :=
  match UnpackPositionalArgs "Get" args kwargs 1 [.starlarkString] with
  | .error e => .error (host.prependStarlarkPositionToError e)
  | .ok vs =>
    .ok { endpoint with URL := host.ExpandEnv (goStringOf (vs.get? 0)), Method := "GET" }

/-- Method `Endpoint.addHeader`, the builtin `AddHeader`. -/
def Endpoint.addHeader (endpoint : Endpoint) (host : Host) (args : List Value)
    (kwargs : List (String × Value)) : Outcome Endpoint :=
  match UnpackPositionalArgs "BasicAuth" args kwargs 2 [.starlarkString, .starlarkString] with
  | .error e => .error (host.prependStarlarkPositionToError e)
  | .ok vs =>
    let headers := if endpoint.Headers.length = 0 then [] else endpoint.Headers
    .ok { endpoint with
          Headers := mapSet headers (host.ExpandEnv (goStringOf (vs.get? 0)))
            (host.ExpandEnv (goStringOf (vs.get? 1))) }

/-- Method `Endpoint.setBasicAuth`, the builtin `BasicAuth`. -/
def Endpoint.setBasicAuth (endpoint : Endpoint) (host : Host) (args : List Value)
    (kwargs : List (String × Value)) : Outcome Endpoint :=
  match UnpackPositionalArgs "BasicAuth" args kwargs 2 [.starlarkString, .starlarkString] with
  | .error e => .error (host.prependStarlarkPositionToError e)
  | .ok vs =>
    .ok { endpoint with
          BasicAuth := some [("username", host.ExpandEnv (goStringOf (vs.get? 0))),
                             ("password", host.ExpandEnv (goStringOf (vs.get? 1)))] }

/-- Method `Endpoint.setPaginate`, the builtin `Paginate`. -/
def Endpoint.setPaginate (endpoint : Endpoint) (host : Host) (args : List Value)
    (kwargs : List (String × Value)) : Outcome Endpoint :=
  match UnpackPositionalArgs "Paginate" args kwargs 1 [.function] with
  | .error e => .error (host.prependStarlarkPositionToError e)
  | .ok vs => .ok { endpoint with Paginate := functionOf (vs.get? 0) }

/-- Method `Endpoint.setResponseType`, the builtin `ResponseType`. -/
def Endpoint.setResponseType (endpoint : Endpoint) (host : Host) (args : List Value)
    (kwargs : List (String × Value)) : Outcome Endpoint :=
  match UnpackPositionalArgs "ResponseType" args kwargs 1 [.starlarkString] with
  | .error e => .error (host.prependStarlarkPositionToError e)
  | .ok vs => .ok { endpoint with ResponseType := goStringOf (vs.get? 0) }

/-- The loop of `setTableDefinition` over `tableDefinition.Keys()`: both type
assertions are unchecked, the one on the key coming first. -/
def tableDefinitionLoop : List (Value × Value) → List (String × String) →
    Outcome (List (String × String))
  | [], m => .ok m
  | (k, v) :: rest, m =>
    match k with
    | .str ks =>
      match v with
      | .str vs => tableDefinitionLoop rest (mapSet m ks vs)
      | _ => .panic ("interface conversion: starlark.Value is " ++ v.goType
          ++ ", not starlark.String")
    | _ => .panic ("interface conversion: starlark.Value is " ++ k.goType
        ++ ", not starlark.String")

/-- Method `Endpoint.setTableDefinition`, the builtin `TableDefinition`. -/
def Endpoint.setTableDefinition (endpoint : Endpoint) (host : Host) (args : List Value)
    (kwargs : List (String × Value)) : Outcome Endpoint :=
  match UnpackPositionalArgs "TableDefinition" args kwargs 1 [.dict] with
  | .error e => .error (host.prependStarlarkPositionToError e)
  | .ok vs =>
    match vs.get? 0 with
    | some (.dict entries) =>
      (tableDefinitionLoop entries []).bind fun tableDefinitionMap =>
        .ok { endpoint with TableDefinition := some tableDefinitionMap }
    | _ => .panic "unreachable: the variable holds a dict"

/-- Method `Endpoint.setTransform`, the builtin `Transform`. -/
def Endpoint.setTransform (endpoint : Endpoint) (host : Host) (args : List Value)
    (kwargs : List (String × Value)) : Outcome Endpoint :=
  match UnpackPositionalArgs "Transform" args kwargs 1 [.function] with
  | .error e => .error (host.prependStarlarkPositionToError e)
  | .ok vs => .ok { endpoint with Transform := functionOf (vs.get? 0) }

/-- Method `Endpoint.setLoadStrategy`, the builtin `LoadStrategy` of an
endpoint script: as on a table, with every returned error passed through
`prependStarlarkPositionToError` and `None` returned. -/
def Endpoint.setLoadStrategy (endpoint : Endpoint) (host : Host) (args : List Value)
    (kwargs : List (String × Value)) : Outcome Endpoint :=
  match args with
  | [] => .panic "runtime error: index out of range [0] with length 0"
  | .str s :: _ =>
    let unpacked : Except String (List (Option Value)) :=
      if s = Full then
        match UnpackPositionalArgs "LoadStrategy" args kwargs 1 [.starlarkString] with
        | .error e => .error e
        | .ok vs => .ok (vs.map some)
      else if s = ModifiedOnly then
        UnpackArgs "LoadStrategy" args kwargs
          [("strategy", .starlarkString), ("primary_key", .starlarkString),
           ("modified_at_column", .starlarkString), ("go_back_hours", .starlarkInt)]
      else if s = Incremental then
        UnpackArgs "LoadStrategy" args kwargs
          [("strategy", .starlarkString), ("primary_key", .starlarkString)]
      else
        .error "LoadStrategy(): invalid strategy, allowed values: Full, ModifiedOnly, Incremental"
    match unpacked with
    | .error e => .error (host.prependStarlarkPositionToError e)
    | .ok slots =>
      let strategy := goStringOf (slots.getD 0 Option.none)
      let primaryKey := goStringOf (slots.getD 1 Option.none)
      let ModifiedAtColumn := goStringOf (slots.getD 2 Option.none)
      let goBackHours := starlarkIntOf (slots.getD 3 Option.none)
      match atoiOfInt goBackHours with
      | .error e =>
        .error (host.prependStarlarkPositionToError ("LoadStrategy(): go_back_hours error: " ++ e))
      | .ok goBackHoursInt =>
        .ok { endpoint with
              LoadOptions := ⟨strategy, primaryKey, ModifiedAtColumn, goBackHoursInt⟩ }
  | v :: _ =>
    .panic ("interface conversion: starlark.Value is " ++ v.goType ++ ", not starlark.String")

/-- The loop of `setErrorHandling` over `errorHandling.Keys()`: the value is
parsed first, then the key is asserted to be a string, unchecked. -/
def errorHandlingLoop (host : Host) : List (Value × Value) → List (String × Int) →
    Outcome (List (String × Int))
  | [], m => .ok m
  | (k, v) :: rest, m =>
    match atoiOfValue v with
    | .error _ =>
      .error (host.prependStarlarkPositionToError
        ("ErrorHandling value not supported: " ++ v.String))
    | .ok i =>
      match k with
      | .str ks => errorHandlingLoop host rest (mapSet m ks i)
      | _ => .panic ("interface conversion: starlark.Value is " ++ k.goType
          ++ ", not starlark.String")

/-- Method `Endpoint.setErrorHandling`, the builtin `ErrorHandling`. -/
def Endpoint.setErrorHandling (endpoint : Endpoint) (host : Host) (args : List Value)
    (kwargs : List (String × Value)) : Outcome Endpoint :=
  match UnpackPositionalArgs "ErrorHandling" args kwargs 1 [.dict] with
  | .error e => .error (host.prependStarlarkPositionToError e)
  | .ok vs =>
    match vs.get? 0 with
    | some (.dict entries) =>
      (errorHandlingLoop host entries []).bind fun errorHandlingMap =>
        .ok { endpoint with ErrorHandling := some errorHandlingMap }
    | _ => .panic "unreachable: the variable holds a dict"

/-! ## Arguments a call supplies -/

/-- The keyword argument called `name`, if the call has one. -/
def kwLookup : List (String × Value) → String → Option Value
  | [], _ => Option.none
  | (n, v) :: rest, name => if n = name then some v else kwLookup rest name

/-- The argument a call supplies for the parameter at position `i` called
`name`: positional argument `i` when there is one, else the keyword argument
of that name. -/
def suppliedArg (args : List Value) (kwargs : List (String × Value)) (i : Nat)
    (name : String) : Option Value :=
  match args.get? i with
  | some v => some v
  | Option.none => kwLookup kwargs name

/-! ## Sequences of calls and sample scripts -/

/-- A sequence of `TransformColumn` calls on one table, each given by its
positional and keyword arguments, run in order; the thread local struct is
the same throughout, as only `Table` sets it. -/
def transformCalls (tableExtract : TableExtract) (tableStruct : Option Struct) :
    List (List Value × List (String × Value)) → Outcome TableExtract
  | [] => .ok tableExtract
  | (args, kwargs) :: rest =>
    match tableExtract.addColumnTransform tableStruct args kwargs with
    | .ok (te1, _) => transformCalls te1 tableStruct rest
    | .error e => .error e
    | .panic m => .panic m

/-- The functions that a sequence of `TransformColumn` calls passes for column
`c`, in call order. -/
def functionsPassedFor (c : String) : List (List Value × List (String × Value)) → List Function
  | [] => []
  | (args, _) :: rest =>
    match args with
    | [.str c1, .func f] =>
      if c1 = c then f :: functionsPassedFor c rest else functionsPassedFor c rest
    | _ => functionsPassedFor c rest

/-- Script `Table("orders").LoadStrategy(Incremental, primary_key="id")`
followed by `Table("*").LoadStrategy(Full)`. -/
def ordersAndStarScript : List Stmt :=
  [.expr (.call (.table [.str "orders"] []) "LoadStrategy" [.str Incremental]
      [("primary_key", .str "id")]),
   .expr (.call (.table [.str "*"] []) "LoadStrategy" [.str Full] [])]

/-- Script `a = Table("a")`, `Table("b")`,
`a.LoadStrategy(Full).TransformColumn("x", f)`. -/
def interleavedScript : List Stmt :=
  [.assign "a" (.table [.str "a"] []),
   .expr (.table [.str "b"] []),
   .expr (.call (.call (.var "a") "LoadStrategy" [.str Full] []) "TransformColumn"
      [.str "x", .func ⟨"f"⟩] [])]

/-! ## CSV import and importable columns (`import.go`) -/

/-- Read of the Go map `Options`: `column.Options[key]`, zero for an absent
key (and for a nil map). -/
def optionOf (options : List (Option_ × Int)) (key : Option_) : Int :=
  match options with
  | [] => 0
  | (k, v) :: rest => if k = key then v else optionOf rest key

/-- The loop of `filterColumns`: `filtered` grows by `append` in the order of
`columns`. -/
def filterColumnsLoop (f : Column → Bool) : List Column → List Column → List Column
  | [], filtered => filtered
  | c :: rest, filtered =>
    if f c then filterColumnsLoop f rest (filtered ++ [c]) else filterColumnsLoop f rest filtered

/-- Function `filterColumns` of `import.go`. -/
def filterColumns (columns : List Column) (f : Column → Bool) : List Column :=
  filterColumnsLoop f columns []

/-- The loop of `containsColumnWithSameName` over the columns still to
visit. -/
def containsLoop (c : Column) : List Column → Bool
  | [] => false
  | column :: rest => if c.Name = column.Name then true else containsLoop c rest

/-- Method `Table.containsColumnWithSameName`. -/
def Table.containsColumnWithSameName (table : Table) (c : Column) : Bool :=
  containsLoop c table.Columns

/-- The loop of `notContainsColumnWithSameName` over the columns still to
visit. -/
def notContainsLoop (c : Column) : List Column → Bool
  | [] => true
  | column :: rest => if c.Name = column.Name then false else notContainsLoop c rest

/-- Method `Table.notContainsColumnWithSameName`. -/
def Table.notContainsColumnWithSameName (table : Table) (c : Column) : Bool :=
  notContainsLoop c table.Columns

/-- The index expression `columns[0]`: a run-time panic on an empty slice. -/
def firstColumn : List Column → Outcome Column
  | [] => .panic "runtime error: index out of range [0] with length 0"
  | c :: _ => .ok c

/-- The `switch destinationColumn.DataType` of `importableColumns`: the line
it logs, if any. -/
def sizeWarning (destinationColumn sourceColumn : Column) : List String :=
  match destinationColumn.DataType with
  | .STRING =>
    if optionOf sourceColumn.Options .LENGTH > optionOf destinationColumn.Options .LENGTH then
      [Sprintf "For string column `%s`, destination LENGTH is too short" [sourceColumn.Name]]
    else []
  | .INTEGER =>
    if optionOf sourceColumn.Options .BYTES > optionOf destinationColumn.Options .BYTES then
      [Sprintf "For integer column `%s`, destination SIZE is too small" [sourceColumn.Name]]
    else []
  | .DECIMAL =>
    if optionOf sourceColumn.Options .PRECISION
        > optionOf destinationColumn.Options .PRECISION then
      [Sprintf "For numeric column `%s`, destination PRECISION is too small" [sourceColumn.Name]]
    else []
  | _ => []

/-- The loop `for _, column := range both` of `importableColumns`: the lines
logged so far. -/
def bothLoop (destinationTable sourceTable : Table) : List Column → List String →
    Outcome (List String)
  | [], logged => .ok logged
  | column :: rest, logged =>
    (firstColumn (filterColumns destinationTable.Columns
        fun c => column.Name = c.Name)).bind fun destinationColumn =>
      (firstColumn (filterColumns sourceTable.Columns
          fun c => column.Name = c.Name)).bind fun sourceColumn =>
        bothLoop destinationTable sourceTable rest
          (logged ++ sizeWarning destinationColumn sourceColumn)

/-- Function `importableColumns` of `import.go`: the lines it logs and the
columns it returns. -/
def importableColumns (destinationTable sourceTable : Table) :
    Outcome (List String × List Column) :=
  let destinationOnly :=
    filterColumns destinationTable.Columns sourceTable.notContainsColumnWithSameName
  let sourceOnly :=
    filterColumns sourceTable.Columns destinationTable.notContainsColumnWithSameName
  let both := filterColumns destinationTable.Columns sourceTable.containsColumnWithSameName
  let logged :=
    (destinationOnly.map fun column =>
      Sprintf "destination table column `%s` excluded from extract (not present in source)"
        [column.Name])
    ++ (sourceOnly.map fun column =>
      Sprintf "source table column `%s` excluded from extract (not present in destination)"
        [column.Name])
  (bothLoop destinationTable sourceTable both logged).bind fun logged1 => .ok (logged1, both)

/-- The loop `for i, value := range line` of `importPostgres` and
`importSqlite3`, from index `i`: a blank cell is stored as nil, any other
cell as it is. -/
def writeBufferLoop : List String → Nat → List (Option String) → List (Option String)
  | [], _, writeBuffer => writeBuffer
  | value :: rest, i, writeBuffer =>
    if value = "" then writeBufferLoop rest (i + 1) (writeBuffer.set i Option.none)
    else writeBufferLoop rest (i + 1) (writeBuffer.set i (some value))

/-- The values `importPostgres` binds for one CSV record: `writeBuffer` is
made with `len(line)` nil entries and filled by the loop. -/
def importPostgresWriteBuffer (line : List String) : List (Option String) :=
  writeBufferLoop line 0 (List.replicate line.length Option.none)

/-- The values `importSqlite3` binds for one CSV record; the code is that of
`importPostgres`. -/
def importSqlite3WriteBuffer (line : List String) : List (Option String) :=
  writeBufferLoop line 0 (List.replicate line.length Option.none)

/-! ## Strategy options -/

/-- The Go conversion `string(n)` of an integer: the one-character string of
code point `n`, and U+FFFD when `n` is no valid code point. -/
def runeString (n : Int) : String :=
  if 0 ≤ n ∧ n.toNat.isValidChar then String.singleton (Char.ofNat n.toNat)
  else String.singleton (Char.ofNat 0xFFFD)

/-- The call `fmt.Sprintf("%d", n)` for an `int`: its decimal numeral. -/
def sprintfDecimal (n : Int) : String :=
  toString n

/-- Method `TableExtract.strategyOpts`: `HoursAgo` is `string(GoBackHours)`. -/
def TableExtract.strategyOpts (tableExtract : TableExtract) : StrategyOptions :=
  { Strategy := tableExtract.LoadOptions.Strategy
    PrimaryKey := tableExtract.LoadOptions.PrimaryKey
    ModifiedAtColumn := tableExtract.LoadOptions.ModifiedAtColumn
    HoursAgo := runeString tableExtract.LoadOptions.GoBackHours }

/-- Method `Endpoint.strategyOpts`: `HoursAgo` is
`fmt.Sprintf("%d", GoBackHours)`. -/
def Endpoint.strategyOpts (endpoint : Endpoint) : StrategyOptions :=
  { Strategy := endpoint.LoadOptions.Strategy
    PrimaryKey := endpoint.LoadOptions.PrimaryKey
    ModifiedAtColumn := endpoint.LoadOptions.ModifiedAtColumn
    HoursAgo := sprintfDecimal endpoint.LoadOptions.GoBackHours }

/-! ## Names of the DSL calls -/

/-- Function `predeclared` of `endpoint_configuration.go`, its DSL methods:
the name each builtin is bound to in the script, with the method behind
it. -/
def predeclared : List (String ×
    (Endpoint → Host → List Value → List (String × Value) → Outcome Endpoint)) :=
  [("AddHeader", Endpoint.addHeader),
   ("BasicAuth", Endpoint.setBasicAuth),
   ("ErrorHandling", Endpoint.setErrorHandling),
   ("Get", Endpoint.get),
   ("LoadStrategy", Endpoint.setLoadStrategy),
   ("Paginate", Endpoint.setPaginate),
   ("ResponseType", Endpoint.setResponseType),
   ("TableDefinition", Endpoint.setTableDefinition),
   ("Transform", Endpoint.setTransform)]

/-- A call `name(args, kwargs)` of an endpoint script. -/
def callPredeclared (name : String) (endpoint : Endpoint) (host : Host) (args : List Value)
    (kwargs : List (String × Value)) : Outcome Endpoint :=
  match predeclared.find? (fun entry => entry.1 = name) with
  | some entry => entry.2 endpoint host args kwargs
  | Option.none => .error ("undefined: " ++ name)

/-! ## Endpoint configuration -/

/-- Function `readEndpointConfiguration`.  `portFile` is the result of
`findPortFile`, `execFile` what `starlark.ExecFile` makes of that file: the
globals and the endpoint the builtins filled.  `validate` stands for
`endpoint.validate()` and `defaultLoadStrategy` for the constant of that
name, both outside the sources.  The result `ok e` stands for a nil error
with `*endpointptr = e`. -/
def readEndpointConfiguration (portFile : Except String String)
    (execFile : String → Outcome (List (String × Value) × Endpoint))
    (validate : Endpoint → Option String) (defaultLoadStrategy : String) : Outcome Endpoint :=
  match portFile with
  | .error e => .error e
  | .ok file =>
    (execFile file).bind fun (configuration, endpoint) =>
      let endpoint := { endpoint with Functions := configuration }
      match validate endpoint with
      | some errs => .error ("Invalid Configuration: " ++ errs)
      | Option.none =>
        if endpoint.LoadOptions.Strategy = "" then
          .ok { endpoint with
                LoadOptions := { endpoint.LoadOptions with Strategy := defaultLoadStrategy } }
        else .ok endpoint

/-! ## DDL test -/

/-- The statement `TestGenerateCreateTableStatement` of `schema_test.go`
expects, as the test writes it before `squish`: one column a line. -/
def expectedWidgetsStatement : String :=
  "CREATE TABLE source_widgets (\n\t\tid INT8,\n\t\tname VARCHAR(255),\n\t\tactive BOOLEAN,\n\t\tprice DECIMAL(10,2)\n\t);"

/-! ## Sample inputs -/

/-- Identifier escaping used in the examples: double quotes around the
name, folded to lower case for the two names it knows. -/
def exampleEscape (s : String) : String :=
  if s = "Orders" then "\"orders\"" else if s = "ID" then "\"id\"" else "\"" ++ s ++ "\""

/-! ## Theorems -/

/-! ### Strings -/

theorem intercalate_go_append (x acc s : String) (l : List String) :
    String.intercalate.go (x ++ acc) s l = x ++ String.intercalate.go acc s l := by
  induction l generalizing acc with
  | nil => rfl
  | cons a l ih =>
    simp only [String.intercalate.go]
    rw [String.append_assoc, String.append_assoc, ← String.append_assoc acc, ih]

theorem intercalate_cons_cons (s a b : String) (l : List String) :
    s.intercalate (a :: b :: l) = a ++ s ++ s.intercalate (b :: l) := by
  simp only [String.intercalate, String.intercalate.go]
  rw [String.append_assoc, intercalate_go_append, intercalate_go_append, String.append_assoc]

theorem sprintf_pair (a b : String) : Sprintf "%s.%s" [a, b] = a ++ "." ++ b := by
  apply String.ext
  simp [Sprintf, sprintfGo, fmtOperand]

theorem sprintf_assign (d s c : String) :
    Sprintf "%[1]s.%[3]s = %[2]s.%[3]s" [d, s, c] = d ++ "." ++ c ++ " = " ++ s ++ "." ++ c := by
  apply String.ext
  simp [Sprintf, sprintfGo, fmtOperand]

theorem sprintf_header (d s p : String) :
    Sprintf "MERGE INTO %[1]s USING %[2]s ON %[1]s.%[3]s = %[2]s.%[3]s\nWHEN MATCHED THEN UPDATE SET\n" [d, s, p]
      = "MERGE INTO " ++ d ++ " USING " ++ s ++ " ON " ++ d ++ "." ++ p ++ " = " ++ s ++ "." ++ p
        ++ "\nWHEN MATCHED THEN UPDATE SET\n" := by
  apply String.ext
  simp [Sprintf, sprintfGo, fmtOperand]

/-! ### The Snowflake merge statement -/

theorem mergeLoop_eq (db : Database) (stg : String) (t : Table) (len : Nat) :
    ∀ (cs : List Column) (i : Nat) (b : MergeBuilders), i + cs.length = len →
      mergeLoop db stg t len cs i b =
        ⟨b.q ++ ", \n".intercalate (cs.map fun c =>
            db.EscapeIdentifier t.Name ++ "." ++ db.EscapeIdentifier c.Name ++ " = "
              ++ db.EscapeIdentifier stg ++ "." ++ db.EscapeIdentifier c.Name),
         b.targetCol ++ ", \n".intercalate (cs.map fun c => db.EscapeIdentifier c.Name),
         b.targetVal ++ ", \n".intercalate (cs.map fun c =>
            db.EscapeIdentifier stg ++ "." ++ db.EscapeIdentifier c.Name)⟩ := by
  intro cs
  induction cs with
  | nil =>
    intro i b _
    simp [mergeLoop, String.intercalate]
  | cons c cs ih =>
    intro i b h
    have h1 : (i + 1) + cs.length = len := by simp at h; omega
    rw [mergeLoop, ih (i + 1) _ h1]
    cases cs with
    | nil =>
      have hi : (i : Int) = (len : Int) - 1 := by simp at h; omega
      simp [mergeLoopBody, hi, String.intercalate, String.intercalate.go, sprintf_pair,
        sprintf_assign]
    | cons c2 cs =>
      have hi : (i : Int) ≠ (len : Int) - 1 := by simp at h; omega
      simp only [mergeLoopBody, if_pos hi, List.map_cons, intercalate_cons_cons, sprintf_pair,
        sprintf_assign]
      simp [String.append_assoc]

theorem getSnowFlakeModifiedOnlyLoadQuery_eq (db : Database) (stagingTableName : String)
    (destinationTable : Table) (strategyOpts : StrategyOptions) :
    getSnowFlakeModifiedOnlyLoadQuery db stagingTableName destinationTable strategyOpts =
      "MERGE INTO " ++ db.EscapeIdentifier destinationTable.Name
        ++ " USING " ++ db.EscapeIdentifier stagingTableName
        ++ " ON " ++ db.EscapeIdentifier destinationTable.Name ++ "."
        ++ db.EscapeIdentifier strategyOpts.PrimaryKey
        ++ " = " ++ db.EscapeIdentifier stagingTableName ++ "."
        ++ db.EscapeIdentifier strategyOpts.PrimaryKey
        ++ "\nWHEN MATCHED THEN UPDATE SET\n"
        ++ ", \n".intercalate (destinationTable.Columns.map fun c =>
            db.EscapeIdentifier destinationTable.Name ++ "." ++ db.EscapeIdentifier c.Name ++ " = "
              ++ db.EscapeIdentifier stagingTableName ++ "." ++ db.EscapeIdentifier c.Name)
        ++ "\nWHEN NOT MATCHED THEN INSERT (\n"
        ++ ", \n".intercalate (destinationTable.Columns.map fun c => db.EscapeIdentifier c.Name)
        ++ ") \n VALUES (\n"
        ++ ", \n".intercalate (destinationTable.Columns.map fun c =>
            db.EscapeIdentifier stagingTableName ++ "." ++ db.EscapeIdentifier c.Name)
        ++ ")" := by
  unfold getSnowFlakeModifiedOnlyLoadQuery
  simp only [mergeLoop_eq db stagingTableName destinationTable _ _ 0 _ (Nat.zero_add _),
    sprintf_header]
  simp [String.append_assoc]

/-- C1. For a destination table with any number N of columns, zero included,
`getSnowFlakeModifiedOnlyLoadQuery` is total and returns the MERGE statement
whose UPDATE SET list, INSERT column list and VALUES list are the
`", \n"`-joined lists of one entry per column of `destinationTable.Columns`,
in table order: N entries each, the k-th built from the k-th column, with the
separator between consecutive entries only. -/
theorem getSnowFlakeModifiedOnlyLoadQuery_wellformed (db : Database)
    (stagingTableName : String) (destinationTable : Table) (strategyOpts : StrategyOptions) :
    getSnowFlakeModifiedOnlyLoadQuery db stagingTableName destinationTable strategyOpts =
      "MERGE INTO " ++ db.EscapeIdentifier destinationTable.Name
        ++ " USING " ++ db.EscapeIdentifier stagingTableName
        ++ " ON " ++ db.EscapeIdentifier destinationTable.Name ++ "."
        ++ db.EscapeIdentifier strategyOpts.PrimaryKey
        ++ " = " ++ db.EscapeIdentifier stagingTableName ++ "."
        ++ db.EscapeIdentifier strategyOpts.PrimaryKey
        ++ "\nWHEN MATCHED THEN UPDATE SET\n"
        ++ ", \n".intercalate (destinationTable.Columns.map fun c =>
            db.EscapeIdentifier destinationTable.Name ++ "." ++ db.EscapeIdentifier c.Name ++ " = "
              ++ db.EscapeIdentifier stagingTableName ++ "." ++ db.EscapeIdentifier c.Name)
        ++ "\nWHEN NOT MATCHED THEN INSERT (\n"
        ++ ", \n".intercalate (destinationTable.Columns.map fun c => db.EscapeIdentifier c.Name)
        ++ ") \n VALUES (\n"
        ++ ", \n".intercalate (destinationTable.Columns.map fun c =>
            db.EscapeIdentifier stagingTableName ++ "." ++ db.EscapeIdentifier c.Name)
        ++ ")"
      ∧ (destinationTable.Columns.map fun c => db.EscapeIdentifier c.Name).length
          = destinationTable.Columns.length :=
  ⟨getSnowFlakeModifiedOnlyLoadQuery_eq db stagingTableName destinationTable strategyOpts,
   List.length_map _ _⟩

/-- C2. `GetDialect` depends on `db.Driver` alone: it is the postgres dialect
for "postgres", sqlite for "sqlite3", mysql for "mysql", redshift for
"redshift", snowflake for "snowflake", and the MySQL dialect for every other
driver string. -/
theorem GetDialect_lookup :
    (∀ db : Database, db.Driver = "postgres" → GetDialect db = postgres)
    ∧ (∀ db : Database, db.Driver = "sqlite3" → GetDialect db = sqlite)
    ∧ (∀ db : Database, db.Driver = "mysql" → GetDialect db = mysql)
    ∧ (∀ db : Database, db.Driver = "redshift" → GetDialect db = redshift)
    ∧ (∀ db : Database, db.Driver = "snowflake" → GetDialect db = snowflake)
    ∧ (∀ db : Database, db.Driver ≠ "postgres" → db.Driver ≠ "sqlite3" →
        db.Driver ≠ "redshift" → db.Driver ≠ "snowflake" → GetDialect db = mysql)
    ∧ (∀ db1 db2 : Database, db1.Driver = db2.Driver → GetDialect db1 = GetDialect db2) := by
  refine ⟨?_, ?_, ?_, ?_, ?_, ?_, ?_⟩
  · intro db h; simp [GetDialect, h]
  · intro db h; simp [GetDialect, h]
  · intro db h; simp [GetDialect, h]
  · intro db h; simp [GetDialect, h]
  · intro db h; simp [GetDialect, h]
  · intro db h1 h2 h3 h4; simp [GetDialect, h1, h2, h3, h4]
  · intro db1 db2 h; simp [GetDialect, h]

/-- C2 at concrete drivers: an unknown driver gets the MySQL dialect, and
"sqlite3" the sqlite one. -/
theorem GetDialect_lookup_witness :
    GetDialect ⟨"oracle", "oracle://db", fun s => s⟩ = mysql
    ∧ GetDialect ⟨"sqlite3", "file.db", fun s => s⟩ = sqlite :=
  ⟨GetDialect_lookup.2.2.2.2.2.1 ⟨"oracle", "oracle://db", fun s => s⟩
      (by decide) (by decide) (by decide) (by decide),
   GetDialect_lookup.2.1 ⟨"sqlite3", "file.db", fun s => s⟩ rfl⟩

/-- C3. The statement built by `getSnowFlakeModifiedOnlyLoadQuery` is a
function of the escaped identifiers alone: two calls whose destination name,
staging name, primary key and column names escape to the same strings,
position by position, build the same statement, whatever the raw
identifiers (and the other fields of the inputs) are. -/
theorem merge_query_of_escaped_only (db1 db2 : Database) (staging1 staging2 : String)
    (table1 table2 : Table) (opts1 opts2 : StrategyOptions)
    (hdest : db1.EscapeIdentifier table1.Name = db2.EscapeIdentifier table2.Name)
    (hstaging : db1.EscapeIdentifier staging1 = db2.EscapeIdentifier staging2)
    (hkey : db1.EscapeIdentifier opts1.PrimaryKey = db2.EscapeIdentifier opts2.PrimaryKey)
    (hcols : table1.Columns.map (fun c => db1.EscapeIdentifier c.Name)
      = table2.Columns.map (fun c => db2.EscapeIdentifier c.Name)) :
    getSnowFlakeModifiedOnlyLoadQuery db1 staging1 table1 opts1
      = getSnowFlakeModifiedOnlyLoadQuery db2 staging2 table2 opts2 := by
  have key : ∀ F : String → String,
      table1.Columns.map (fun c => F (db1.EscapeIdentifier c.Name))
        = table2.Columns.map (fun c => F (db2.EscapeIdentifier c.Name)) := by
    intro F
    have h := congrArg (List.map F) hcols
    simpa [List.map_map, Function.comp] using h
  rw [getSnowFlakeModifiedOnlyLoadQuery_eq, getSnowFlakeModifiedOnlyLoadQuery_eq, hdest, hstaging,
    hkey, hcols,
    key (fun e => db2.EscapeIdentifier table2.Name ++ "." ++ e ++ " = "
      ++ db2.EscapeIdentifier staging2 ++ "." ++ e),
    key (fun e => db2.EscapeIdentifier staging2 ++ "." ++ e)]

/-- C3 at two inputs that differ in their raw identifiers, strategy and
column types and agree after escaping. -/
theorem merge_query_of_escaped_only_witness :
    getSnowFlakeModifiedOnlyLoadQuery ⟨"snowflake", "", exampleEscape⟩ "stg"
        ⟨"src", "Orders", [⟨"ID", .INTEGER, []⟩, ⟨"total", .DECIMAL, []⟩]⟩
        ⟨"ModifiedOnly", "ID", "updated_at", "24"⟩
      = getSnowFlakeModifiedOnlyLoadQuery ⟨"snowflake", "", exampleEscape⟩ "stg"
        ⟨"other", "orders", [⟨"id", .STRING, []⟩, ⟨"total", .DECIMAL, []⟩]⟩
        ⟨"Incremental", "id", "", "0"⟩ :=
  merge_query_of_escaped_only _ _ _ _ _ _ _ _ (by decide) (by decide) (by decide) (by decide)

/-! ### Full-load templates -/

theorem sprintf_fullLoad (d s : String) :
    Sprintf postgres.FullLoadQuery [d, s]
      = "\n\t\t\tDELETE FROM " ++ d ++ ";\n\t\t\tINSERT INTO " ++ d ++ " SELECT * FROM " ++ s
          ++ "\n\t\t" := by
  apply String.ext
  simp [Sprintf, sprintfGo, fmtOperand, postgres]

theorem fields_lead :
    List.foldl fieldsStep ⟨[], []⟩ "\n\t\t\tDELETE FROM ".data
      = List.foldl fieldsStep ⟨[], []⟩ "DELETE FROM ".data := by
  decide

theorem fields_mid (t : FieldScan) :
    List.foldl fieldsStep t ";\n\t\t\tINSERT INTO ".data
      = List.foldl fieldsStep t "; INSERT INTO ".data := by
  obtain ⟨done, cur⟩ := t
  simp [fieldsStep, isSpace]

theorem fields_trail (t : FieldScan) :
    fieldsFinish (List.foldl fieldsStep t "\n\t\t".data) = fieldsFinish t := by
  obtain ⟨done, cur⟩ := t
  by_cases h : cur = [] <;> simp [fieldsStep, isSpace, fieldsFinish, h]

theorem squish_fullLoad (d s : String) :
    squish ("\n\t\t\tDELETE FROM " ++ d ++ ";\n\t\t\tINSERT INTO " ++ d ++ " SELECT * FROM " ++ s
          ++ "\n\t\t")
      = squish ("DELETE FROM " ++ d ++ "; INSERT INTO " ++ d ++ " SELECT * FROM " ++ s) := by
  unfold squish Fields
  simp only [String.data_append, List.foldl_append]
  rw [fields_trail, fields_lead, fields_mid]

theorem foldl_fieldsStep_nospace (l : List Char) (h : ∀ c ∈ l, isSpace c = false) :
    ∀ t : FieldScan, List.foldl fieldsStep t l = ⟨t.done, t.cur ++ l⟩ := by
  induction l with
  | nil => intro t; simp
  | cons c l ih =>
    intro t
    have hc : isSpace c = false := h c (List.mem_cons_self _ _)
    rw [List.foldl_cons, ih (fun x hx => h x (List.mem_cons_of_mem _ hx))]
    simp [fieldsStep, hc]

theorem squish_fullLoad_clean (d s : String) (hd : d ≠ "") (hs : s ≠ "")
    (hdw : ∀ c ∈ d.data, isSpace c = false) (hsw : ∀ c ∈ s.data, isSpace c = false) :
    squish ("DELETE FROM " ++ d ++ "; INSERT INTO " ++ d ++ " SELECT * FROM " ++ s)
      = "DELETE FROM " ++ d ++ "; INSERT INTO " ++ d ++ " SELECT * FROM " ++ s := by
  have hd1 : d.data ≠ [] := fun h => hd (String.ext h)
  have hs1 : s.data ≠ [] := fun h => hs (String.ext h)
  have e1 : List.foldl fieldsStep ⟨[], []⟩ "DELETE FROM ".data
      = ⟨["DELETE".data, "FROM".data], []⟩ := by decide
  have e2 : ∀ t : FieldScan, t.cur ≠ [] → List.foldl fieldsStep t "; INSERT INTO ".data
      = ⟨t.done ++ [t.cur ++ [';'], "INSERT".data, "INTO".data], []⟩ := by
    intro t ht
    obtain ⟨done, cur⟩ := t
    simp [fieldsStep, isSpace]
  have e3 : ∀ t : FieldScan, t.cur ≠ [] → List.foldl fieldsStep t " SELECT * FROM ".data
      = ⟨t.done ++ [t.cur, "SELECT".data, "*".data, "FROM".data], []⟩ := by
    intro t ht
    obtain ⟨done, cur⟩ := t
    simp only [] at ht
    simp [fieldsStep, isSpace, ht]
  unfold squish Fields
  simp only [String.data_append, List.foldl_append]
  rw [e1]
  simp only [foldl_fieldsStep_nospace _ hdw, foldl_fieldsStep_nospace _ hsw]
  rw [e2 _ (by simpa using hd1)]
  simp only [foldl_fieldsStep_nospace _ hdw, foldl_fieldsStep_nospace _ hsw]
  rw [e3 _ (by simpa using hd1)]
  simp only [foldl_fieldsStep_nospace _ hdw, foldl_fieldsStep_nospace _ hsw]
  apply String.ext
  simp [fieldsFinish, hs1, String.intercalate, String.intercalate.go]

/-- C4. The SQLite full-load template is the PostgreSQL one, and for each of
PostgreSQL, Redshift and SQLite and all table names, filling `FullLoadQuery`
with (destination, staging) gives the delete-then-insert text laid out over
three lines; normalising white space on it and on
`DELETE FROM dest; INSERT INTO dest SELECT * FROM staging` gives the same
string, which is that very string when both names are non-empty and free of
white space. -/
theorem FullLoadQuery_delete_insert :
    sqlite.FullLoadQuery = postgres.FullLoadQuery
    ∧ ∀ dialect : Dialect, dialect ∈ [postgres, redshift, sqlite] →
      ∀ dest staging : String,
        Sprintf dialect.FullLoadQuery [dest, staging]
          = "\n\t\t\tDELETE FROM " ++ dest ++ ";\n\t\t\tINSERT INTO " ++ dest
              ++ " SELECT * FROM " ++ staging ++ "\n\t\t"
        ∧ squish (Sprintf dialect.FullLoadQuery [dest, staging])
          = squish ("DELETE FROM " ++ dest ++ "; INSERT INTO " ++ dest
              ++ " SELECT * FROM " ++ staging)
        ∧ (dest ≠ "" → staging ≠ "" → (∀ c ∈ dest.data, isSpace c = false) →
            (∀ c ∈ staging.data, isSpace c = false) →
            squish (Sprintf dialect.FullLoadQuery [dest, staging])
              = "DELETE FROM " ++ dest ++ "; INSERT INTO " ++ dest
                  ++ " SELECT * FROM " ++ staging) := by
  refine ⟨rfl, ?_⟩
  intro dialect hmem dest staging
  have hq : dialect.FullLoadQuery = postgres.FullLoadQuery := by
    simp only [List.mem_cons, List.mem_singleton, List.not_mem_nil, or_false] at hmem
    rcases hmem with h | h | h <;> subst h <;> rfl
  rw [hq, sprintf_fullLoad, squish_fullLoad]
  exact ⟨rfl, rfl, fun h1 h2 h3 h4 => squish_fullLoad_clean dest staging h1 h2 h3 h4⟩

/-- C4 at the Redshift dialect with tables `orders` and `orders_staging`. -/
theorem FullLoadQuery_delete_insert_witness :
    squish (Sprintf redshift.FullLoadQuery ["orders", "orders_staging"])
      = "DELETE FROM orders; INSERT INTO orders SELECT * FROM orders_staging" :=
  (FullLoadQuery_delete_insert.2 redshift (by simp) "orders" "orders_staging").2.2
    (by decide) (by decide) (by decide) (by decide)

/-! ### Argument unpacking and `LoadStrategy` -/

theorem unpackOneArg_ok {v w : Value} {p : ParamKind} (h : unpackOneArg v p = .ok w) : w = v := by
  cases p <;> cases v <;> simp [unpackOneArg] at h <;> exact h.symm

theorem unpackOneArg_str {v w : Value} (h : unpackOneArg v .starlarkString = .ok w) :
    ∃ s, v = .str s := by
  cases v <;> simp [unpackOneArg] at h
  exact ⟨_, rfl⟩

theorem unpackOneArg_int {v w : Value} (h : unpackOneArg v .starlarkInt = .ok w) :
    ∃ i, v = .int i := by
  cases v <;> simp [unpackOneArg] at h
  exact ⟨_, rfl⟩

theorem getD_map_none (pairs : List (String × ParamKind)) (i : Nat) :
    (pairs.map fun _ => (Option.none : Option Value)).getD i Option.none = Option.none := by
  induction pairs generalizing i with
  | nil => simp
  | cons a l ih => cases i <;> simp [ih]

theorem unpackArgsPositional_spec (fnname : String) :
    ∀ (args : List Value) (pairs : List (String × ParamKind)) (slots : List (Option Value)),
      args.length ≤ pairs.length → unpackArgsPositional fnname args pairs = .ok slots →
      slots.length = pairs.length ∧ (∀ i, slots.getD i Option.none = args.get? i)
      ∧ (∀ i v n p, args.get? i = some v → pairs.get? i = some (n, p) →
          unpackOneArg v p = .ok v) := by
  intro args
  induction args with
  | nil =>
    intro pairs slots _ h
    simp only [unpackArgsPositional, Except.ok.injEq] at h
    subst h
    refine ⟨by simp, fun i => by simp [getD_map_none], fun i v n p h => by simp at h⟩
  | cons a rest ih =>
    intro pairs slots hlen h
    cases pairs with
    | nil => simp at hlen
    | cons np ps =>
      obtain ⟨n0, p0⟩ := np
      simp only [unpackArgsPositional] at h
      cases h1 : unpackOneArg a p0 with
      | error e => simp [h1] at h
      | ok v =>
        have hv := unpackOneArg_ok h1
        subst hv
        simp only [h1] at h
        cases h2 : unpackArgsPositional fnname rest ps with
        | error e => simp [h2] at h
        | ok slots2 =>
          simp only [h2, Except.ok.injEq] at h
          subst h
          have hlen2 : rest.length ≤ ps.length := by simpa using hlen
          obtain ⟨hl, hg, ht⟩ := ih ps slots2 hlen2 h2
          refine ⟨by simp [hl], ?_, ?_⟩
          · intro i
            cases i with
            | zero => simp
            | succ j => simpa using hg j
          · intro i w n p hw hp
            cases i with
            | zero =>
              simp at hw hp
              obtain ⟨rfl, rfl⟩ := hp
              subst hw
              exact h1
            | succ j =>
              simp at hw hp
              exact ht j w n p (by simpa using hw) (by simpa using hp)

theorem findParam_some :
    ∀ (pairs : List (String × ParamKind)) (name : String) (k j : Nat) (p : ParamKind),
      findParam pairs name k = some (j, p) → k ≤ j ∧ pairs.get? (j - k) = some (name, p) := by
  intro pairs
  induction pairs with
  | nil => intro name k j p h; simp [findParam] at h
  | cons np ps ih =>
    intro name k j p h
    obtain ⟨n0, p0⟩ := np
    simp only [findParam] at h
    by_cases hn : n0 = name
    · simp only [hn, if_true, Option.some.injEq, Prod.mk.injEq] at h
      obtain ⟨rfl, rfl⟩ := h
      simp [hn]
    · simp only [hn, if_false] at h
      obtain ⟨hk, hg⟩ := ih name (k + 1) j p h
      refine ⟨by omega, ?_⟩
      have : j - k = (j - (k + 1)) + 1 := by omega
      rw [this]
      simpa using hg

theorem names_inj :
    ∀ (pairs : List (String × ParamKind)), (pairs.map Prod.fst).Nodup →
      ∀ (i j : Nat) (n : String) (p q : ParamKind),
        pairs.get? i = some (n, p) → pairs.get? j = some (n, q) → i = j := by
  intro pairs
  induction pairs with
  | nil => intro _ i j n p q h; simp at h
  | cons np ps ih =>
    intro hnd i j n p q hi hj
    simp only [List.map_cons, List.nodup_cons] at hnd
    obtain ⟨hnot, hnd2⟩ := hnd
    cases i with
    | zero =>
      cases j with
      | zero => rfl
      | succ j2 =>
        exfalso
        simp at hi hj
        apply hnot
        subst hi
        have hm : (n, q) ∈ ps := List.getElem?_mem hj
        simpa using List.mem_map_of_mem Prod.fst hm
    | succ i2 =>
      cases j with
      | zero =>
        exfalso
        simp at hi hj
        apply hnot
        subst hj
        have hm : (n, p) ∈ ps := List.getElem?_mem hi
        simpa using List.mem_map_of_mem Prod.fst hm
      | succ j2 =>
        simp at hi hj
        have := ih hnd2 i2 j2 n p q (by simpa using hi) (by simpa using hj)
        omega

theorem unpackArgsKeywords_spec (fnname : String) (pairs : List (String × ParamKind))
    (hnd : (pairs.map Prod.fst).Nodup) :
    ∀ (kwargs : List (String × Value)) (slots slots1 : List (Option Value)),
      unpackArgsKeywords fnname pairs kwargs slots = .ok slots1 →
      slots1.length = slots.length
      ∧ (∀ i, (slots.getD i Option.none).isSome →
          slots1.getD i Option.none = slots.getD i Option.none)
      ∧ (∀ i n p, pairs.get? i = some (n, p) → i < slots.length →
          slots.getD i Option.none = Option.none →
          slots1.getD i Option.none = kwLookup kwargs n
          ∧ ∀ v, kwLookup kwargs n = some v → unpackOneArg v p = .ok v)
      ∧ (∀ n v, (n, v) ∈ kwargs → (findParam pairs n 0).isSome) := by
  intro kwargs
  induction kwargs with
  | nil =>
    intro slots slots1 h
    simp only [unpackArgsKeywords, Except.ok.injEq] at h
    subst h
    refine ⟨rfl, fun _ _ => rfl, ?_, ?_⟩
    · intro i n p _ _ h0
      rw [h0]
      exact ⟨rfl, fun v hv => by simp [kwLookup] at hv⟩
    · intro n v h; simp at h
  | cons kv rest ih =>
    intro slots slots1 h
    obtain ⟨nm, a⟩ := kv
    simp only [unpackArgsKeywords] at h
    cases hf : findParam pairs nm 0 with
    | none => simp [hf] at h
    | some jp =>
      obtain ⟨j, pj⟩ := jp
      simp only [hf] at h
      obtain ⟨_, hpj⟩ := findParam_some pairs nm 0 j pj hf
      simp only [Nat.sub_zero] at hpj
      by_cases hs : (slots.getD j Option.none).isSome
      · rw [if_pos hs] at h
        cases h
      · rw [if_neg hs] at h
        cases hu : unpackOneArg a pj with
        | error e => simp [hu] at h
        | ok w =>
          have hw := unpackOneArg_ok hu
          subst hw
          simp only [hu] at h
          obtain ⟨hl, hkeep, hkw, hnames⟩ := ih (slots.set j (some w)) slots1 (by simpa using h)
          refine ⟨by simpa using hl, ?_, ?_, ?_⟩
          · intro i hi
            have hij : i ≠ j := by
              intro e; subst e; exact hs hi
            have e1 : (slots.set j (some w)).getD i Option.none = slots.getD i Option.none := by
              simp [List.getD_eq_getElem?_getD, List.getElem?_set, Ne.symm hij]
            have := hkeep i (by rw [e1]; exact hi)
            rw [this, e1]
          · intro i n p hp hlt h0
            by_cases hij : i = j
            · subst hij
              have hn : n = nm ∧ p = pj := by
                rw [hpj] at hp
                simp at hp
                exact ⟨hp.1.symm, hp.2.symm⟩
              obtain ⟨rfl, rfl⟩ := hn
              have e1 : (slots.set i (some w)).getD i Option.none = some w := by
                simp [List.getD_eq_getElem?_getD, List.getElem?_set, hlt]
              have := hkeep i (by rw [e1]; rfl)
              rw [this, e1]
              refine ⟨by simp [kwLookup], ?_⟩
              intro v hv
              simp only [kwLookup, if_true, Option.some.injEq] at hv
              subst hv
              exact hu
            · have hne : nm ≠ n := by
                intro e
                subst e
                exact hij (names_inj pairs hnd i j nm p pj hp hpj)
              have e1 : (slots.set j (some w)).getD i Option.none = slots.getD i Option.none := by
                simp [List.getD_eq_getElem?_getD, List.getElem?_set, Ne.symm hij]
              have := hkw i n p hp (by simpa using hlt) (by rw [e1]; exact h0)
              simpa [kwLookup, hne] using this
          · intro n v hmem
            simp only [List.mem_cons, Prod.mk.injEq] at hmem
            rcases hmem with ⟨rfl, rfl⟩ | hmem
            · simp [hf]
            · exact hnames n v hmem

theorem firstMissing_none :
    ∀ (pairs : List (String × ParamKind)) (slots : List (Option Value)),
      slots.length = pairs.length → firstMissing pairs slots = Option.none →
      ∀ i, i < pairs.length → (slots.getD i Option.none).isSome := by
  intro pairs
  induction pairs with
  | nil => intro slots _ _ i hi; simp at hi
  | cons np ps ih =>
    intro slots hl h i hi
    obtain ⟨n0, p0⟩ := np
    cases slots with
    | nil => simp at hl
    | cons s rest =>
      simp only [firstMissing] at h
      by_cases hs : s.isSome
      · simp only [hs, if_true] at h
        cases i with
        | zero => simpa using hs
        | succ k =>
          have := ih rest (by simpa using hl) h k (by simpa using hi)
          simpa using this
      · simp [hs] at h

theorem UnpackArgs_ok (fnname : String) (args : List Value) (kwargs : List (String × Value))
    (pairs : List (String × ParamKind)) (hnd : (pairs.map Prod.fst).Nodup)
    (slots : List (Option Value)) (h : UnpackArgs fnname args kwargs pairs = .ok slots) :
    args.length ≤ pairs.length ∧ slots.length = pairs.length
    ∧ (∀ i n p, pairs.get? i = some (n, p) →
        ∃ v, slots.getD i Option.none = some v ∧ suppliedArg args kwargs i n = some v
          ∧ unpackOneArg v p = .ok v)
    ∧ (∀ n v, (n, v) ∈ kwargs → (findParam pairs n 0).isSome) := by
  unfold UnpackArgs at h
  by_cases hlen : args.length > pairs.length
  · rw [if_pos hlen] at h; cases h
  · rw [if_neg hlen] at h
    have hle : args.length ≤ pairs.length := by omega
    cases h0 : unpackArgsPositional fnname args pairs with
    | error e => simp [h0] at h
    | ok slots0 =>
      simp only [h0] at h
      obtain ⟨hl0, hg0, ht0⟩ := unpackArgsPositional_spec fnname args pairs slots0 hle h0
      cases h1 : unpackArgsKeywords fnname pairs kwargs slots0 with
      | error e => simp [h1] at h
      | ok slots1 =>
        simp only [h1] at h
        obtain ⟨hl1, hkeep, hkw, hnames⟩ :=
          unpackArgsKeywords_spec fnname pairs hnd kwargs slots0 slots1 h1
        cases h2 : firstMissing pairs slots1 with
        | some n => simp [h2] at h
        | none =>
          simp only [h2, Except.ok.injEq] at h
          subst h
          have hfull := firstMissing_none pairs slots1 (by rw [hl1, hl0]) h2
          refine ⟨hle, by rw [hl1, hl0], ?_, hnames⟩
          intro i n p hp
          have hi : i < pairs.length := by
            by_contra hc
            have : pairs.get? i = Option.none := by
              simp only [List.get?_eq_getElem?]
              exact List.getElem?_eq_none (by omega)
            rw [this] at hp
            cases hp
          cases ha : args.get? i with
          | some v =>
            have e0 : slots0.getD i Option.none = some v := by rw [hg0, ha]
            have e1 := hkeep i (by rw [e0]; rfl)
            refine ⟨v, by rw [e1, e0], by unfold suppliedArg; rw [ha], ht0 i v n p ha hp⟩
          | none =>
            have e0 : slots0.getD i Option.none = Option.none := by rw [hg0, ha]
            obtain ⟨e1, e2⟩ := hkw i n p hp (by omega) e0
            have e3 := hfull i hi
            rw [e1] at e3
            obtain ⟨v, hv⟩ := Option.isSome_iff_exists.mp e3
            exact ⟨v, by rw [e1, hv], by unfold suppliedArg; rw [ha]; exact hv, e2 v hv⟩

theorem UnpackPositionalArgs_one (fnname : String) (args : List Value)
    (kwargs : List (String × Value)) (vs : List Value)
    (h : UnpackPositionalArgs fnname args kwargs 1 [.starlarkString] = .ok vs) :
    kwargs = [] ∧ ∃ s, args = [.str s] ∧ vs = [.str s] := by
  unfold UnpackPositionalArgs at h
  cases kwargs with
  | cons kv rest => simp at h
  | nil =>
    refine ⟨rfl, ?_⟩
    cases args with
    | nil => simp at h
    | cons a rest =>
      cases rest with
      | cons b rest2 => simp at h
      | nil =>
        cases a <;> simp [unpackPositional, unpackOneArg] at h
        exact ⟨_, rfl, h.symm⟩

theorem setLoadStrategy_ok_spec (te : TableExtract) (ts : Option Struct) (args : List Value)
    (kwargs : List (String × Value)) (te1 : TableExtract) (h1 : Struct)
    (h : te.setLoadStrategy ts args kwargs = .ok (te1, h1)) :
    ts = some h1 ∧ te1.ColumnTransforms = te.ColumnTransforms
    ∧ te1.ComputedColumns = te.ComputedColumns
    ∧ ((args = [.str Full] ∧ kwargs = [] ∧ te1.LoadOptions = ⟨Full, "", "", 0⟩)
      ∨ (args.head? = some (.str Incremental) ∧ args.length ≤ 2
          ∧ (∀ n v, (n, v) ∈ kwargs → n = "strategy" ∨ n = "primary_key")
          ∧ ∃ pk, suppliedArg args kwargs 1 "primary_key" = some (.str pk)
            ∧ te1.LoadOptions = ⟨Incremental, pk, "", 0⟩)
      ∨ (args.head? = some (.str ModifiedOnly)
          ∧ ∃ pk mac g, suppliedArg args kwargs 1 "primary_key" = some (.str pk)
            ∧ suppliedArg args kwargs 2 "modified_at_column" = some (.str mac)
            ∧ suppliedArg args kwargs 3 "go_back_hours" = some (.int g)
            ∧ te1.LoadOptions = ⟨ModifiedOnly, pk, mac, g⟩)) := by
  cases args with
  | nil => simp [TableExtract.setLoadStrategy] at h
  | cons a rest =>
    cases a with
    | str s =>
      simp only [TableExtract.setLoadStrategy] at h
      by_cases hF : s = Full
      · subst hF
        rw [if_pos rfl] at h
        cases hu : UnpackPositionalArgs "LoadStrategy" (Value.str Full :: rest) kwargs 1
            [.starlarkString] with
        | error e => simp [hu] at h
        | ok vs =>
          obtain ⟨hk, s, hs, hvs⟩ := UnpackPositionalArgs_one _ _ _ _ hu
          subst hvs
          simp only [List.cons.injEq, Value.str.injEq] at hs
          obtain ⟨rfl, rfl⟩ := hs
          simp only [hu] at h
          cases ts with
          | none => simp [goStringOf, starlarkIntOf, atoiOfInt, localTableStruct, Outcome.bind] at h
          | some hh =>
            simp [goStringOf, starlarkIntOf, atoiOfInt, localTableStruct, Outcome.bind] at h
            obtain ⟨rfl, rfl⟩ := h
            exact ⟨rfl, rfl, rfl, Or.inl ⟨rfl, hk, rfl⟩⟩
      · rw [if_neg hF] at h
        by_cases hM : s = ModifiedOnly
        · subst hM
          rw [if_pos rfl] at h
          cases hu : UnpackArgs "LoadStrategy" (Value.str ModifiedOnly :: rest) kwargs
              [("strategy", .starlarkString), ("primary_key", .starlarkString),
               ("modified_at_column", .starlarkString), ("go_back_hours", .starlarkInt)] with
          | error e => simp [hu] at h
          | ok slots =>
            simp only [hu] at h
            obtain ⟨_, _, hsl, _⟩ := UnpackArgs_ok _ _ _ _ (by decide) slots hu
            obtain ⟨v0, e0, s0, _⟩ := hsl 0 "strategy" .starlarkString rfl
            obtain ⟨v1, e1, s1, t1⟩ := hsl 1 "primary_key" .starlarkString rfl
            obtain ⟨v2, e2, s2, t2⟩ := hsl 2 "modified_at_column" .starlarkString rfl
            obtain ⟨v3, e3, s3, t3⟩ := hsl 3 "go_back_hours" .starlarkInt rfl
            obtain ⟨pk, rfl⟩ := unpackOneArg_str t1
            obtain ⟨mac, rfl⟩ := unpackOneArg_str t2
            obtain ⟨g, rfl⟩ := unpackOneArg_int t3
            have hv0 : v0 = .str ModifiedOnly := by
              simp [suppliedArg] at s0
              exact s0.symm
            subst hv0
            rw [e0, e1, e2, e3] at h
            simp only [goStringOf, starlarkIntOf] at h
            cases hat : atoiOfInt g with
            | error e => simp [hat] at h
            | ok g1 =>
              have hg : g1 = g := by
                unfold atoiOfInt at hat
                split at hat
                · simpa using hat.symm
                · cases hat
              subst hg
              simp only [hat] at h
              cases ts with
              | none => simp [localTableStruct, Outcome.bind] at h
              | some hh =>
                simp [localTableStruct, Outcome.bind] at h
                obtain ⟨rfl, rfl⟩ := h
                exact ⟨rfl, rfl, rfl, Or.inr (Or.inr ⟨rfl, pk, mac, g1, s1, s2, s3, rfl⟩)⟩
        · rw [if_neg hM] at h
          by_cases hI : s = Incremental
          · subst hI
            rw [if_pos rfl] at h
            cases hu : UnpackArgs "LoadStrategy" (Value.str Incremental :: rest) kwargs
                [("strategy", .starlarkString), ("primary_key", .starlarkString)] with
            | error e => simp [hu] at h
            | ok slots =>
              simp only [hu] at h
              obtain ⟨hlen, hsl2, hsl, hnames⟩ := UnpackArgs_ok _ _ _ _ (by decide) slots hu
              obtain ⟨v0, e0, s0, _⟩ := hsl 0 "strategy" .starlarkString rfl
              obtain ⟨v1, e1, s1, t1⟩ := hsl 1 "primary_key" .starlarkString rfl
              obtain ⟨pk, rfl⟩ := unpackOneArg_str t1
              have hv0 : v0 = .str Incremental := by
                simp [suppliedArg] at s0
                exact s0.symm
              subst hv0
              have e2 : slots.getD 2 Option.none = Option.none := by
                simp [List.getD_eq_getElem?_getD, List.getElem?_eq_none (show slots.length ≤ 2 by simp [hsl2])]
              have e3 : slots.getD 3 Option.none = Option.none := by
                simp [List.getD_eq_getElem?_getD, List.getElem?_eq_none (show slots.length ≤ 3 by simp [hsl2])]
              rw [e0, e1, e2, e3] at h
              simp only [goStringOf, starlarkIntOf] at h
              have hat : atoiOfInt 0 = .ok 0 := by simp [atoiOfInt]
              simp only [hat] at h
              cases ts with
              | none => simp [localTableStruct, Outcome.bind] at h
              | some hh =>
                simp [localTableStruct, Outcome.bind] at h
                obtain ⟨rfl, rfl⟩ := h
                refine ⟨rfl, rfl, rfl, Or.inr (Or.inl ⟨rfl, by simpa using hlen, ?_, pk, s1, rfl⟩)⟩
                intro n v hmem
                have := hnames n v hmem
                simp only [findParam] at this
                by_cases hn1 : "strategy" = n
                · exact Or.inl hn1.symm
                · by_cases hn2 : "primary_key" = n
                  · exact Or.inr hn2.symm
                  · simp [hn1, hn2] at this
          · rw [if_neg hI] at h
            simp at h
    | _ => simp [TableExtract.setLoadStrategy] at h

theorem Endpoint.setLoadStrategy_eq_table (endpoint : Endpoint) (host : Host)
    (te : TableExtract) (hh : Struct) (args : List Value) (kwargs : List (String × Value)) :
    endpoint.setLoadStrategy host args kwargs =
      match te.setLoadStrategy (some hh) args kwargs with
      | .ok (te1, _) => .ok { endpoint with LoadOptions := te1.LoadOptions }
      | .error e => .error (host.prependStarlarkPositionToError e)
      | .panic m => .panic m := by
  cases args with
  | nil => rfl
  | cons a rest =>
    cases a with
    | str s =>
      simp only [Endpoint.setLoadStrategy, TableExtract.setLoadStrategy]
      generalize (if s = Full then
          match UnpackPositionalArgs "LoadStrategy" (Value.str s :: rest) kwargs 1
            [ParamKind.starlarkString] with
          | Except.error e => Except.error e
          | Except.ok vs => Except.ok (List.map some vs)
        else if s = ModifiedOnly then
          UnpackArgs "LoadStrategy" (Value.str s :: rest) kwargs
            [("strategy", ParamKind.starlarkString), ("primary_key", ParamKind.starlarkString),
             ("modified_at_column", ParamKind.starlarkString),
             ("go_back_hours", ParamKind.starlarkInt)]
        else if s = Incremental then
          UnpackArgs "LoadStrategy" (Value.str s :: rest) kwargs
            [("strategy", ParamKind.starlarkString), ("primary_key", ParamKind.starlarkString)]
        else
          Except.error
            "LoadStrategy(): invalid strategy, allowed values: Full, ModifiedOnly, Incremental") = u
      cases u with
      | error e => rfl
      | ok slots =>
        simp only []
        cases atoiOfInt (starlarkIntOf (slots.getD 3 Option.none)) with
        | error e => rfl
        | ok g => rfl
    | _ => rfl

theorem setLoadStrategy_no_panic (te : TableExtract) (hh : Struct) (s : String)
    (rest : List Value) (kwargs : List (String × Value)) :
    (te.setLoadStrategy (some hh) (.str s :: rest) kwargs).isPanic = false := by
  simp only [TableExtract.setLoadStrategy]
  split
  · rfl
  · split
    · rfl
    · rfl

/-- When the first positional argument is a string, a `LoadStrategy` call whose
argument set does not match it returns an error, on a table (with the thread
local struct set) and on an endpoint: an unknown strategy; Full with a further
positional or keyword argument; Incremental without `primary_key`, with a third
positional argument, or with `modified_at_column` or `go_back_hours`;
ModifiedOnly missing one of its three arguments. -/
theorem setLoadStrategy_mismatch_error (te : TableExtract) (hh : Struct) (endpoint : Endpoint)
    (host : Host) (s : String) (rest : List Value) (kwargs : List (String × Value))
    (hm : (s ≠ Full ∧ s ≠ Incremental ∧ s ≠ ModifiedOnly)
      ∨ (s = Full ∧ (rest ≠ [] ∨ kwargs ≠ []))
      ∨ (s = Incremental
          ∧ (suppliedArg (.str s :: rest) kwargs 1 "primary_key" = Option.none
            ∨ rest.length > 1
            ∨ ∃ v, ("modified_at_column", v) ∈ kwargs ∨ ("go_back_hours", v) ∈ kwargs))
      ∨ (s = ModifiedOnly
          ∧ (suppliedArg (.str s :: rest) kwargs 1 "primary_key" = Option.none
            ∨ suppliedArg (.str s :: rest) kwargs 2 "modified_at_column" = Option.none
            ∨ suppliedArg (.str s :: rest) kwargs 3 "go_back_hours" = Option.none))) :
    (te.setLoadStrategy (some hh) (.str s :: rest) kwargs).isError = true
    ∧ (endpoint.setLoadStrategy host (.str s :: rest) kwargs).isError = true := by
  have key : (te.setLoadStrategy (some hh) (.str s :: rest) kwargs).isError = true := by
    cases hr : te.setLoadStrategy (some hh) (.str s :: rest) kwargs with
    | error e => rfl
    | panic m =>
      have := setLoadStrategy_no_panic te hh s rest kwargs
      rw [hr] at this
      cases this
    | ok r =>
      exfalso
      obtain ⟨te1, h1⟩ := r
      obtain ⟨_, _, _, hc⟩ := setLoadStrategy_ok_spec te (some hh) _ kwargs te1 h1 hr
      rcases hc with ⟨ha, hk, _⟩ | ⟨ha, hlen, hnames, pk, hpk, _⟩ | ⟨ha, pk, mac, g, hpk, hmac, hg, _⟩
      · simp only [List.cons.injEq, Value.str.injEq] at ha
        obtain ⟨rfl, rfl⟩ := ha
        rcases hm with ⟨h1, _, _⟩ | ⟨_, h2 | h2⟩ | ⟨h3, _⟩ | ⟨h4, _⟩
        · exact h1 rfl
        · exact h2 rfl
        · exact h2 hk
        · exact absurd h3 (by decide)
        · exact absurd h4 (by decide)
      · simp only [List.head?_cons, Option.some.injEq, Value.str.injEq] at ha
        subst ha
        rcases hm with ⟨_, h1, _⟩ | ⟨h2, _⟩ | ⟨_, h3 | h3 | ⟨v, h3 | h3⟩⟩ | ⟨h4, _⟩
        · exact h1 rfl
        · exact absurd h2 (by decide)
        · rw [hpk] at h3; cases h3
        · simp at hlen; omega
        · rcases hnames _ _ h3 with h | h <;> exact absurd h (by decide)
        · rcases hnames _ _ h3 with h | h <;> exact absurd h (by decide)
        · exact absurd h4 (by decide)
      · simp only [List.head?_cons, Option.some.injEq, Value.str.injEq] at ha
        subst ha
        rcases hm with ⟨_, _, h1⟩ | ⟨h2, _⟩ | ⟨h3, _⟩ | ⟨_, h4 | h4 | h4⟩
        · exact h1 rfl
        · exact absurd h2 (by decide)
        · exact absurd h3 (by decide)
        · rw [hpk] at h4; cases h4
        · rw [hmac] at h4; cases h4
        · rw [hg] at h4; cases h4
  refine ⟨key, ?_⟩
  rw [Endpoint.setLoadStrategy_eq_table endpoint host te hh]
  cases hr : te.setLoadStrategy (some hh) (.str s :: rest) kwargs with
  | error e => rfl
  | panic m => rw [hr] at key; cases key
  | ok r => rw [hr] at key; cases key


/-- C5 at its failing input: `LoadStrategy(5)`.  The first argument is not one
of Full, Incremental, ModifiedOnly, and both builtins panic in the unchecked
assertion `args[0].(starlark.String)` instead of returning an error. -/
theorem setLoadStrategy_nonstring_panics :
    (TableExtract.zero.setLoadStrategy (some ⟨"orders", 0⟩) [.int 5] []).isPanic = true
    ∧ (TableExtract.zero.setLoadStrategy (some ⟨"orders", 0⟩) [.int 5] []).isError = false
    ∧ (Endpoint.zero.setLoadStrategy ⟨fun s => s, fun e => e⟩ [.int 5] []).isPanic = true
    ∧ (Endpoint.zero.setLoadStrategy ⟨fun s => s, fun e => e⟩ [.int 5] []).isError = false :=
  ⟨rfl, rfl, rfl, rfl⟩

/-- C6 at its failing inputs: `LoadStrategy()`, `LoadStrategy(strategy="Full")`
and `LoadStrategy(None)` panic (index out of range, failed type assertion), and
so do `TableDefinition` with a non-string key or value and `ErrorHandling`
with a non-string key. -/
theorem builtins_panic :
    (TableExtract.zero.setLoadStrategy (some ⟨"orders", 0⟩) [] []).isPanic = true
    ∧ (Endpoint.zero.setLoadStrategy ⟨fun s => s, fun e => e⟩ []
        [("strategy", .str "Full")]).isPanic = true
    ∧ (Endpoint.zero.setLoadStrategy ⟨fun s => s, fun e => e⟩ [.none] []).isPanic = true
    ∧ (Endpoint.zero.setTableDefinition ⟨fun s => s, fun e => e⟩
        [.dict [(.int 1, .str "INT8")]] []).isPanic = true
    ∧ (Endpoint.zero.setTableDefinition ⟨fun s => s, fun e => e⟩
        [.dict [(.str "id", .int 8)]] []).isPanic = true
    ∧ (Endpoint.zero.setErrorHandling ⟨fun s => s, fun e => e⟩
        [.dict [(.int 1, .int 1)]] []).isPanic = true :=
  ⟨rfl, rfl, rfl, rfl, rfl, rfl⟩

/-- C7 as stated fails: `LoadStrategy(Incremental, primary_key="")` on a table
succeeds and stores an empty `PrimaryKey`, and
`LoadStrategy(ModifiedOnly, "", "", 24)` on an endpoint succeeds and stores an
empty `PrimaryKey` and `ModifiedAtColumn`. -/
theorem setLoadStrategy_empty_primary_key :
    TableExtract.zero.setLoadStrategy (some ⟨"orders", 0⟩) [.str Incremental]
        [("primary_key", .str "")]
      = .ok (⟨⟨Incremental, "", "", 0⟩, [], []⟩, ⟨"orders", 0⟩)
    ∧ Endpoint.zero.setLoadStrategy ⟨fun s => s, fun e => e⟩
        [.str ModifiedOnly, .str "", .str "", .int 24] []
      = .ok { Endpoint.zero with LoadOptions := ⟨ModifiedOnly, "", "", 24⟩ } :=
  ⟨rfl, rfl⟩

/-- C7 as amended.  The `LoadOptions` stored by a successful `LoadStrategy`
call, on a table or on an endpoint, is fixed by the arguments: for Full the
call has no further argument and the other fields are empty and 0; for
Incremental `PrimaryKey` is the supplied `primary_key` string, which may be
empty, and the other two fields are empty and 0; for ModifiedOnly `PrimaryKey`
and `ModifiedAtColumn` are the supplied strings, either of which may be empty,
and `GoBackHours` is the supplied `go_back_hours`. -/
theorem setLoadStrategy_stores_supplied (args : List Value) (kwargs : List (String × Value))
    (lo : LoadOptions)
    (h : (∃ (te : TableExtract) (ts : Option Struct) (te1 : TableExtract) (h1 : Struct),
            te.setLoadStrategy ts args kwargs = .ok (te1, h1) ∧ te1.LoadOptions = lo)
        ∨ (∃ (endpoint : Endpoint) (host : Host) (endpoint1 : Endpoint),
            endpoint.setLoadStrategy host args kwargs = .ok endpoint1
              ∧ endpoint1.LoadOptions = lo)) :
    (args = [.str Full] ∧ kwargs = [] ∧ lo = ⟨Full, "", "", 0⟩)
    ∨ (args.head? = some (.str Incremental)
        ∧ ∃ pk, suppliedArg args kwargs 1 "primary_key" = some (.str pk)
          ∧ lo = ⟨Incremental, pk, "", 0⟩)
    ∨ (args.head? = some (.str ModifiedOnly)
        ∧ ∃ pk mac g, suppliedArg args kwargs 1 "primary_key" = some (.str pk)
          ∧ suppliedArg args kwargs 2 "modified_at_column" = some (.str mac)
          ∧ suppliedArg args kwargs 3 "go_back_hours" = some (.int g)
          ∧ lo = ⟨ModifiedOnly, pk, mac, g⟩) := by
  have htab : ∃ (te : TableExtract) (ts : Option Struct) (te1 : TableExtract) (h1 : Struct),
      te.setLoadStrategy ts args kwargs = .ok (te1, h1) ∧ te1.LoadOptions = lo := by
    rcases h with h | ⟨endpoint, host, endpoint1, hr, hlo⟩
    · exact h
    · rw [Endpoint.setLoadStrategy_eq_table endpoint host TableExtract.zero ⟨"", 0⟩] at hr
      cases ht : TableExtract.zero.setLoadStrategy (some ⟨"", 0⟩) args kwargs with
      | error e => rw [ht] at hr; cases hr
      | panic m => rw [ht] at hr; cases hr
      | ok r =>
        obtain ⟨te1, h1⟩ := r
        rw [ht] at hr
        simp only [Outcome.ok.injEq] at hr
        subst hr
        exact ⟨_, _, te1, h1, ht, hlo⟩
  obtain ⟨te, ts, te1, h1, hr, hlo⟩ := htab
  obtain ⟨_, _, _, hc⟩ := setLoadStrategy_ok_spec te ts args kwargs te1 h1 hr
  rw [hlo] at hc
  rcases hc with hc | ⟨ha, _, _, hc⟩ | hc
  · exact Or.inl hc
  · exact Or.inr (Or.inl ⟨ha, hc⟩)
  · exact Or.inr (Or.inr hc)

/-- C7 as amended, at `LoadStrategy(ModifiedOnly, primary_key="id",
modified_at_column="updated_at", go_back_hours=24)` on a table. -/
theorem setLoadStrategy_stores_supplied_witness :
    suppliedArg [.str ModifiedOnly]
        [("primary_key", .str "id"), ("modified_at_column", .str "updated_at"),
         ("go_back_hours", .int 24)] 3 "go_back_hours" = some (.int 24)
    ∧ (([Value.str ModifiedOnly] = [.str Full]
          ∧ [("primary_key", Value.str "id"), ("modified_at_column", .str "updated_at"),
             ("go_back_hours", .int 24)] = []
          ∧ (⟨ModifiedOnly, "id", "updated_at", 24⟩ : LoadOptions) = ⟨Full, "", "", 0⟩)
      ∨ ([Value.str ModifiedOnly].head? = some (.str Incremental)
          ∧ ∃ pk, suppliedArg [.str ModifiedOnly]
              [("primary_key", .str "id"), ("modified_at_column", .str "updated_at"),
               ("go_back_hours", .int 24)] 1 "primary_key" = some (.str pk)
            ∧ (⟨ModifiedOnly, "id", "updated_at", 24⟩ : LoadOptions) = ⟨Incremental, pk, "", 0⟩)
      ∨ ([Value.str ModifiedOnly].head? = some (.str ModifiedOnly)
          ∧ ∃ pk mac g, suppliedArg [.str ModifiedOnly]
              [("primary_key", .str "id"), ("modified_at_column", .str "updated_at"),
               ("go_back_hours", .int 24)] 1 "primary_key" = some (.str pk)
            ∧ suppliedArg [.str ModifiedOnly]
              [("primary_key", .str "id"), ("modified_at_column", .str "updated_at"),
               ("go_back_hours", .int 24)] 2 "modified_at_column" = some (.str mac)
            ∧ suppliedArg [.str ModifiedOnly]
              [("primary_key", .str "id"), ("modified_at_column", .str "updated_at"),
               ("go_back_hours", .int 24)] 3 "go_back_hours" = some (.int g)
            ∧ (⟨ModifiedOnly, "id", "updated_at", 24⟩ : LoadOptions)
                = ⟨ModifiedOnly, pk, mac, g⟩)) :=
  ⟨rfl, setLoadStrategy_stores_supplied _ _ _
    (Or.inl ⟨TableExtract.zero, some ⟨"orders", 0⟩, _, ⟨"orders", 0⟩, rfl, rfl⟩)⟩

/-! ### Resolution of a table's extract -/

/-- C8. `readTableExtractConfiguration` returns no error and the default
extract (strategy Full, no primary key, no transforms, no computed columns)
when no script is found; when the script ran, it returns the entry registered
under `tableName` if there is one, else the entry registered under "*" if
there is one, else the default extract; an error of the script is returned
as it is. -/
theorem readTableExtractConfiguration_resolution (portFile : Except String String)
    (execFile : String → Outcome ScriptState) (tableName : String) :
    defaultTableExtract = ⟨⟨"Full", "", "", 0⟩, [], []⟩
    ∧ (∀ e, portFile = .error e →
        readTableExtractConfiguration portFile execFile tableName = .ok defaultTableExtract)
    ∧ (∀ file e, portFile = .ok file → execFile file = .error e →
        readTableExtractConfiguration portFile execFile tableName = .error e)
    ∧ (∀ file st, portFile = .ok file → execFile file = .ok st →
        (∀ t, st.lookup tableName = some t →
          readTableExtractConfiguration portFile execFile tableName = .ok t)
        ∧ (st.lookup tableName = Option.none → ∀ t, st.lookup "*" = some t →
          readTableExtractConfiguration portFile execFile tableName = .ok t)
        ∧ (st.lookup tableName = Option.none → st.lookup "*" = Option.none →
          readTableExtractConfiguration portFile execFile tableName
            = .ok defaultTableExtract)) := by
  refine ⟨rfl, ?_, ?_, ?_⟩
  · intro e h
    subst h
    rfl
  · intro file e h he
    subst h
    simp [readTableExtractConfiguration, he, Outcome.bind]
  · intro file st h hst
    subst h
    refine ⟨?_, ?_, ?_⟩
    · intro t ht
      simp [readTableExtractConfiguration, hst, Outcome.bind, ht]
    · intro h1 t ht
      simp [readTableExtractConfiguration, hst, Outcome.bind, h1, ht]
    · intro h1 h2
      simp [readTableExtractConfiguration, hst, Outcome.bind, h1, h2]

/-- C8 on a script that declares `orders` and `*`: table `customers` gets the
`*` entry, and table `orders` its own. -/
theorem readTableExtractConfiguration_resolution_witness :
    readTableExtractConfiguration (.ok "db.port")
        (fun _ => execStmts ordersAndStarScript [] ScriptState.init) "customers"
      = .ok ⟨⟨"Full", "", "", 0⟩, [], []⟩
    ∧ readTableExtractConfiguration (.ok "db.port")
        (fun _ => execStmts ordersAndStarScript [] ScriptState.init) "orders"
      = .ok ⟨⟨"Incremental", "id", "", 0⟩, [], []⟩ :=
  ⟨((readTableExtractConfiguration_resolution (.ok "db.port")
        (fun _ => execStmts ordersAndStarScript [] ScriptState.init) "customers").2.2.2
      "db.port" _ rfl rfl).2.1 rfl _ rfl,
   ((readTableExtractConfiguration_resolution (.ok "db.port")
        (fun _ => execStmts ordersAndStarScript [] ScriptState.init) "orders").2.2.2
      "db.port" _ rfl rfl).1 _ rfl⟩

/-! ### Column transforms -/

theorem mapGet_mapSet_same {ν : Type} (m : List (String × ν)) (k : String) (v zero : ν) :
    mapGet (mapSet m k v) k zero = v := by
  induction m with
  | nil => simp [mapSet, mapGet]
  | cons kv rest ih =>
    obtain ⟨k1, v1⟩ := kv
    by_cases h : k1 = k
    · simp [mapSet, mapGet, h]
    · simp [mapSet, mapGet, h, ih]

theorem mapGet_mapSet_other {ν : Type} (m : List (String × ν)) (k k2 : String) (v zero : ν)
    (hne : k2 ≠ k) : mapGet (mapSet m k v) k2 zero = mapGet m k2 zero := by
  induction m with
  | nil => simp [mapSet, mapGet, Ne.symm hne]
  | cons kv rest ih =>
    obtain ⟨k1, v1⟩ := kv
    by_cases h : k1 = k
    · subst h
      simp [mapSet, mapGet, Ne.symm hne]
    · by_cases h2 : k1 = k2
      · subst h2
        simp [mapSet, mapGet, h]
      · simp [mapSet, mapGet, h, h2, ih]

theorem addColumnTransform_ok_spec (te : TableExtract) (ts : Option Struct) (args : List Value)
    (kwargs : List (String × Value)) (te1 : TableExtract) (h1 : Struct)
    (h : te.addColumnTransform ts args kwargs = .ok (te1, h1)) :
    ∃ c f, args = [.str c, .func f] ∧ kwargs = [] ∧ ts = some h1
      ∧ te1 = { te with
                ColumnTransforms :=
                  mapSet te.ColumnTransforms c (mapGet te.ColumnTransforms c [] ++ [f]) } := by
  unfold TableExtract.addColumnTransform UnpackPositionalArgs at h
  cases kwargs with
  | cons kv rest => simp at h
  | nil =>
    cases args with
    | nil => simp at h
    | cons a r1 =>
      cases r1 with
      | nil => simp at h
      | cons b r2 =>
        cases r2 with
        | cons c r3 => simp at h
        | nil =>
          cases a <;> cases b <;>
            simp [unpackPositional, unpackOneArg, goStringOf, functionOf] at h
          cases ts with
          | none => simp [localTableStruct, Outcome.bind] at h
          | some hh =>
            simp [localTableStruct, Outcome.bind] at h
            obtain ⟨rfl, rfl⟩ := h
            exact ⟨_, _, rfl, rfl, rfl, rfl⟩

/-- C9. A successful `TransformColumn` call for column `c` with function `f`
appends `f` to `ColumnTransforms[c]` and leaves the lists of all other
columns, the `LoadOptions` and the `ComputedColumns` as they were; after a
sequence of successful calls on one table, `ColumnTransforms[c]` is, for every
column `c`, the list it held before followed by the functions passed for `c`
in call order (on a fresh table: exactly those functions). -/
theorem addColumnTransform_appends (te : TableExtract) (ts : Option Struct)
    (calls : List (List Value × List (String × Value))) (te1 : TableExtract)
    (h : transformCalls te ts calls = .ok te1) :
    (∀ c, mapGet te1.ColumnTransforms c []
        = mapGet te.ColumnTransforms c [] ++ functionsPassedFor c calls)
    ∧ te1.LoadOptions = te.LoadOptions ∧ te1.ComputedColumns = te.ComputedColumns
    ∧ (∀ args kwargs te2 h2, te.addColumnTransform ts args kwargs = .ok (te2, h2) →
        ∃ c f, args = [.str c, .func f] ∧ kwargs = []
          ∧ mapGet te2.ColumnTransforms c [] = mapGet te.ColumnTransforms c [] ++ [f]
          ∧ (∀ c2, c2 ≠ c →
              mapGet te2.ColumnTransforms c2 [] = mapGet te.ColumnTransforms c2 [])
          ∧ te2.LoadOptions = te.LoadOptions ∧ te2.ComputedColumns = te.ComputedColumns) := by
  refine ⟨?_, ?_⟩
  · induction calls generalizing te with
    | nil =>
      simp only [transformCalls, Outcome.ok.injEq] at h
      subst h
      simp [functionsPassedFor]
    | cons call rest ih =>
      obtain ⟨args, kwargs⟩ := call
      simp only [transformCalls] at h
      cases hc : te.addColumnTransform ts args kwargs with
      | error e => simp [hc] at h
      | panic m => simp [hc] at h
      | ok r =>
        obtain ⟨te2, h2⟩ := r
        simp only [hc] at h
        obtain ⟨c0, f0, rfl, rfl, _, rfl⟩ := addColumnTransform_ok_spec te ts _ _ te2 h2 hc
        have := ih _ h
        intro c
        rw [this c]
        by_cases hcc : c = c0
        · subst hcc
          simp [functionsPassedFor, mapGet_mapSet_same]
        · have hne : c0 ≠ c := fun e => hcc e.symm
          simp [functionsPassedFor, mapGet_mapSet_other _ _ _ _ _ hcc, hne]
  · refine ⟨?_, ?_, ?_⟩
    · induction calls generalizing te with
      | nil =>
        simp only [transformCalls, Outcome.ok.injEq] at h
        subst h
        rfl
      | cons call rest ih =>
        obtain ⟨args, kwargs⟩ := call
        simp only [transformCalls] at h
        cases hc : te.addColumnTransform ts args kwargs with
        | error e => simp [hc] at h
        | panic m => simp [hc] at h
        | ok r =>
          obtain ⟨te2, h2⟩ := r
          simp only [hc] at h
          obtain ⟨c0, f0, rfl, rfl, _, rfl⟩ := addColumnTransform_ok_spec te ts _ _ te2 h2 hc
          have hrec := ih _ h
          exact hrec
    · induction calls generalizing te with
      | nil =>
        simp only [transformCalls, Outcome.ok.injEq] at h
        subst h
        rfl
      | cons call rest ih =>
        obtain ⟨args, kwargs⟩ := call
        simp only [transformCalls] at h
        cases hc : te.addColumnTransform ts args kwargs with
        | error e => simp [hc] at h
        | panic m => simp [hc] at h
        | ok r =>
          obtain ⟨te2, h2⟩ := r
          simp only [hc] at h
          obtain ⟨c0, f0, rfl, rfl, _, rfl⟩ := addColumnTransform_ok_spec te ts _ _ te2 h2 hc
          have hrec := ih _ h
          exact hrec
    · intro args kwargs te2 h2 hc
      obtain ⟨c0, f0, rfl, rfl, _, rfl⟩ := addColumnTransform_ok_spec te ts _ _ te2 h2 hc
      exact ⟨c0, f0, rfl, rfl, mapGet_mapSet_same _ _ _ _,
        fun c2 hne => mapGet_mapSet_other _ _ _ _ _ hne, rfl, rfl⟩

/-- C9 on a fresh table: `TransformColumn("name", trim)`,
`TransformColumn("email", lower)`, `TransformColumn("name", upper)` leave
`name` with `[trim, upper]`. -/
theorem addColumnTransform_appends_witness :
    mapGet
        (⟨⟨"", "", "", 0⟩, [("name", [⟨"trim"⟩, ⟨"upper"⟩]), ("email", [⟨"lower"⟩])], []⟩ :
          TableExtract).ColumnTransforms "name" []
      = mapGet TableExtract.zero.ColumnTransforms "name" []
        ++ functionsPassedFor "name"
          [([.str "name", .func ⟨"trim"⟩], []), ([.str "email", .func ⟨"lower"⟩], []),
           ([.str "name", .func ⟨"upper"⟩], [])]
    ∧ functionsPassedFor "name"
          [([.str "name", .func ⟨"trim"⟩], []), ([.str "email", .func ⟨"lower"⟩], []),
           ([.str "name", .func ⟨"upper"⟩], [])] = [⟨"trim"⟩, ⟨"upper"⟩] :=
  ⟨(addColumnTransform_appends TableExtract.zero (some ⟨"users", 0⟩)
    [([.str "name", .func ⟨"trim"⟩], []), ([.str "email", .func ⟨"lower"⟩], []),
     ([.str "name", .func ⟨"upper"⟩], [])] _ rfl).1 "name", rfl⟩

/-! ### Chained builder calls -/

/-- C10 at its failing input, the script `a = Table("a")`, `Table("b")`,
`a.LoadStrategy(Full).TransformColumn("x", f)`: the call `a.LoadStrategy(Full)`
sets the strategy of table `a` and returns the struct of table `b`, the last
one `Table` made, so the chained `TransformColumn` lands in the configuration
registered under `b`, and `a` gets no transform. -/
theorem chained_call_hits_last_table :
    execStmts interleavedScript [] ScriptState.init
      = .ok ⟨[⟨⟨"Full", "", "", 0⟩, [], []⟩, ⟨⟨"", "", "", 0⟩, [("x", [⟨"f"⟩])], []⟩],
             [("a", 0), ("b", 1)], some ⟨"b", 1⟩⟩
    ∧ (ScriptState.lookup ⟨[⟨⟨"Full", "", "", 0⟩, [], []⟩,
          ⟨⟨"", "", "", 0⟩, [("x", [⟨"f"⟩])], []⟩], [("a", 0), ("b", 1)], some ⟨"b", 1⟩⟩ "a")
        = some ⟨⟨"Full", "", "", 0⟩, [], []⟩
    ∧ (ScriptState.lookup ⟨[⟨⟨"Full", "", "", 0⟩, [], []⟩,
          ⟨⟨"", "", "", 0⟩, [("x", [⟨"f"⟩])], []⟩], [("a", 0), ("b", 1)], some ⟨"b", 1⟩⟩ "b")
        = some ⟨⟨"", "", "", 0⟩, [("x", [⟨"f"⟩])], []⟩
    ∧ Struct.callMember ⟨[TableExtract.zero, TableExtract.zero], [("a", 0), ("b", 1)],
          some ⟨"b", 1⟩⟩ ⟨"a", 0⟩ "LoadStrategy" [.str Full] []
        = .ok (⟨[⟨⟨"Full", "", "", 0⟩, [], []⟩, TableExtract.zero], [("a", 0), ("b", 1)],
                some ⟨"b", 1⟩⟩, ⟨"b", 1⟩) :=
  ⟨rfl, rfl, rfl, rfl⟩

/-- A builder call on a struct returns the thread local struct, the one the
last `Table` call made, whatever struct it was called on; it changes the
`TableExtract` of its receiver only, and neither the registry nor the thread
local. -/
theorem callMember_returns_thread_local (st : ScriptState) (recv : Struct) (member : String)
    (args : List Value) (kwargs : List (String × Value)) (st1 : ScriptState) (h1 : Struct)
    (h : recv.callMember st member args kwargs = .ok (st1, h1)) :
    st.tableStruct = some h1 ∧ st1.tableStruct = st.tableStruct
    ∧ st1.TableExtracts = st.TableExtracts
    ∧ (∀ addr, addr ≠ recv.target → st1.heap.get? addr = st.heap.get? addr) := by
  unfold Struct.callMember at h
  cases hg : st.heap.get? recv.target with
  | none => rw [hg] at h; cases h
  | some te =>
    rw [hg] at h
    simp only [] at h
    have key : ∀ (r : Outcome (TableExtract × Struct)),
        (r.bind fun (x : TableExtract × Struct) =>
            Outcome.ok ({ st with heap := st.heap.set recv.target x.1 }, x.2)) = .ok (st1, h1) →
        (∀ te1 h2, r = .ok (te1, h2) → st.tableStruct = some h2) →
        st.tableStruct = some h1 ∧ st1.tableStruct = st.tableStruct
          ∧ st1.TableExtracts = st.TableExtracts
          ∧ (∀ addr, addr ≠ recv.target → st1.heap.get? addr = st.heap.get? addr) := by
      intro r hr hts
      cases r with
      | error e => simp [Outcome.bind] at hr
      | panic m => simp [Outcome.bind] at hr
      | ok x =>
        obtain ⟨te1, h2⟩ := x
        simp only [Outcome.bind, Outcome.ok.injEq, Prod.mk.injEq] at hr
        obtain ⟨rfl, rfl⟩ := hr
        refine ⟨hts te1 h2 rfl, rfl, rfl, ?_⟩
        intro addr hne
        simp [List.getElem?_set, Ne.symm hne]
    apply key _ h
    intro te1 h2 hr
    by_cases hm1 : member = "LoadStrategy"
    · rw [if_pos hm1] at hr
      exact (setLoadStrategy_ok_spec te _ _ _ te1 h2 hr).1
    · rw [if_neg hm1] at hr
      by_cases hm2 : member = "TransformColumn"
      · rw [if_pos hm2] at hr
        obtain ⟨_, _, _, _, hts, _⟩ := addColumnTransform_ok_spec te _ _ _ te1 h2 hr
        exact hts
      · rw [if_neg hm2] at hr
        by_cases hm3 : member = "ComputeColumn"
        · rw [if_pos hm3] at hr
          unfold TableExtract.addComputedColumn at hr
          split at hr
          · cases hr
          · split at hr
            · cases hr
            · cases hts : st.tableStruct with
              | none => rw [hts] at hr; simp [localTableStruct, Outcome.bind] at hr
              | some hh =>
                rw [hts] at hr
                simp [localTableStruct, Outcome.bind] at hr
                rw [hr.2]
        · rw [if_neg hm3] at hr
          cases hr

/-- The mismatch theorem at `LoadStrategy(Incremental)`, which lacks
`primary_key`: both builtins return an error. -/
theorem setLoadStrategy_mismatch_error_witness :
    (TableExtract.zero.setLoadStrategy (some ⟨"orders", 0⟩) [.str "Incremental"] []).isError
        = true
    ∧ (Endpoint.zero.setLoadStrategy ⟨fun s => s, fun e => e⟩ [.str "Incremental"] []).isError
        = true :=
  setLoadStrategy_mismatch_error TableExtract.zero ⟨"orders", 0⟩ Endpoint.zero
    ⟨fun s => s, fun e => e⟩ "Incremental" [] []
    (Or.inr (Or.inr (Or.inl ⟨rfl, Or.inl rfl⟩)))

/-- The thread-local theorem after `a = Table("a")`, `Table("b")`, at
`a.LoadStrategy(Full)`: the thread local is the struct of `b`. -/
theorem callMember_returns_thread_local_witness :
    (some ⟨"b", 1⟩ : Option Struct) = some ⟨"b", 1⟩
    ∧ (some ⟨"b", 1⟩ : Option Struct) = some ⟨"b", 1⟩
    ∧ [("a", 0), ("b", 1)] = [("a", 0), ("b", 1)]
    ∧ (∀ addr, addr ≠ 0 →
        [(⟨⟨"Full", "", "", 0⟩, [], []⟩ : TableExtract), TableExtract.zero].get? addr
          = [TableExtract.zero, TableExtract.zero].get? addr) :=
  callMember_returns_thread_local
    ⟨[TableExtract.zero, TableExtract.zero], [("a", 0), ("b", 1)], some ⟨"b", 1⟩⟩ ⟨"a", 0⟩
    "LoadStrategy" [.str Full] []
    ⟨[⟨⟨"Full", "", "", 0⟩, [], []⟩, TableExtract.zero], [("a", 0), ("b", 1)], some ⟨"b", 1⟩⟩
    ⟨"b", 1⟩ rfl

/-! ### Importable columns -/

theorem filterColumnsLoop_eq (f : Column → Bool) :
    ∀ (columns filtered : List Column),
      filterColumnsLoop f columns filtered = filtered ++ columns.filter f := by
  intro columns
  induction columns with
  | nil => intro filtered; simp [filterColumnsLoop]
  | cons c rest ih =>
    intro filtered
    by_cases h : f c = true
    · simp [filterColumnsLoop, h, ih]
    · simp [filterColumnsLoop, h, ih]

theorem filterColumns_eq_filter (columns : List Column) (f : Column → Bool) :
    filterColumns columns f = columns.filter f := by
  simp [filterColumns, filterColumnsLoop_eq]

theorem containsLoop_iff (c : Column) (columns : List Column) :
    containsLoop c columns = true ↔ ∃ x ∈ columns, c.Name = x.Name := by
  induction columns with
  | nil => simp [containsLoop]
  | cons x rest ih =>
    by_cases h : c.Name = x.Name
    · simp [containsLoop, h]
    · simp [containsLoop, h, ih]

theorem mem_both_iff (destinationTable sourceTable : Table) (column : Column) :
    column ∈ filterColumns destinationTable.Columns sourceTable.containsColumnWithSameName
      ↔ column ∈ destinationTable.Columns ∧ ∃ x ∈ sourceTable.Columns, column.Name = x.Name := by
  rw [filterColumns_eq_filter, List.mem_filter, Table.containsColumnWithSameName,
    containsLoop_iff]

theorem lookups_nonempty (destinationTable sourceTable : Table) (column : Column)
    (h : column ∈ filterColumns destinationTable.Columns
      sourceTable.containsColumnWithSameName) :
    filterColumns destinationTable.Columns (fun c => column.Name = c.Name) ≠ []
    ∧ filterColumns sourceTable.Columns (fun c => column.Name = c.Name) ≠ [] := by
  obtain ⟨hd, x, hx, hn⟩ := (mem_both_iff destinationTable sourceTable column).mp h
  constructor
  · intro he
    have : column ∈ filterColumns destinationTable.Columns (fun c => column.Name = c.Name) := by
      rw [filterColumns_eq_filter, List.mem_filter]
      exact ⟨hd, by simp⟩
    rw [he] at this
    cases this
  · intro he
    have : x ∈ filterColumns sourceTable.Columns (fun c => column.Name = c.Name) := by
      rw [filterColumns_eq_filter, List.mem_filter]
      exact ⟨hx, by simp [hn]⟩
    rw [he] at this
    cases this

theorem firstColumn_ok (columns : List Column) (h : columns ≠ []) :
    ∃ c, firstColumn columns = .ok c := by
  cases columns with
  | nil => exact absurd rfl h
  | cons c rest => exact ⟨c, rfl⟩

theorem bothLoop_ok (destinationTable sourceTable : Table) :
    ∀ (columns : List Column) (logged : List String),
      (∀ column ∈ columns,
        filterColumns destinationTable.Columns (fun c => column.Name = c.Name) ≠ []
        ∧ filterColumns sourceTable.Columns (fun c => column.Name = c.Name) ≠ []) →
      ∃ logged1, bothLoop destinationTable sourceTable columns logged = .ok logged1 := by
  intro columns
  induction columns with
  | nil => intro logged _; exact ⟨logged, rfl⟩
  | cons column rest ih =>
    intro logged h
    obtain ⟨h1, h2⟩ := h column (List.mem_cons_self _ _)
    obtain ⟨d, hd⟩ := firstColumn_ok _ h1
    obtain ⟨s, hs⟩ := firstColumn_ok _ h2
    obtain ⟨l1, hl⟩ := ih (logged ++ sizeWarning d s)
      (fun c hc => h c (List.mem_cons_of_mem _ hc))
    refine ⟨l1, ?_⟩
    simp only [bothLoop, hd, hs, Outcome.bind]
    exact hl

theorem importableColumns_ok (destinationTable sourceTable : Table) :
    ∃ logged, importableColumns destinationTable sourceTable
      = .ok (logged,
          filterColumns destinationTable.Columns sourceTable.containsColumnWithSameName) := by
  obtain ⟨l1, hl⟩ := bothLoop_ok destinationTable sourceTable
    (filterColumns destinationTable.Columns sourceTable.containsColumnWithSameName)
    ((destinationTable.Columns.filter sourceTable.notContainsColumnWithSameName |>.map
        fun column =>
          Sprintf "destination table column `%s` excluded from extract (not present in source)"
            [column.Name])
      ++ (sourceTable.Columns.filter destinationTable.notContainsColumnWithSameName |>.map
        fun column =>
          Sprintf "source table column `%s` excluded from extract (not present in destination)"
            [column.Name]))
    (fun column hc => lookups_nonempty destinationTable sourceTable column hc)
  refine ⟨l1, ?_⟩
  simp only [importableColumns, filterColumns_eq_filter] at hl ⊢
  rw [hl]
  rfl

/-- C11. For every destination and source table `importableColumns` returns
normally, and what it returns is the list of the destination table's columns
whose `Name` is the `Name` of some source column, in destination column
order: a source column whose name no destination column has, and a
destination column whose name no source column has, are not in it. -/
theorem importableColumns_result (destinationTable sourceTable : Table) :
    ∃ logged, importableColumns destinationTable sourceTable
        = .ok (logged, destinationTable.Columns.filter
            fun c => sourceTable.Columns.any fun x => decide (c.Name = x.Name))
      ∧ (∀ c, c ∈ sourceTable.Columns → (∀ x ∈ destinationTable.Columns, x.Name ≠ c.Name) →
          c ∉ destinationTable.Columns.filter
            fun c => sourceTable.Columns.any fun x => decide (c.Name = x.Name))
      ∧ (∀ c, c ∈ destinationTable.Columns → (∀ x ∈ sourceTable.Columns, x.Name ≠ c.Name) →
          c ∉ destinationTable.Columns.filter
            fun c => sourceTable.Columns.any fun x => decide (c.Name = x.Name)) := by
  obtain ⟨logged, h⟩ := importableColumns_ok destinationTable sourceTable
  have hf : filterColumns destinationTable.Columns sourceTable.containsColumnWithSameName
      = destinationTable.Columns.filter
          fun c => sourceTable.Columns.any fun x => decide (c.Name = x.Name) := by
    rw [filterColumns_eq_filter]
    apply List.filter_congr
    intro c _
    rw [Bool.eq_iff_iff, Table.containsColumnWithSameName, containsLoop_iff]
    simp
  rw [hf] at h
  refine ⟨logged, h, ?_, ?_⟩
  · intro c _ hno hmem
    rw [List.mem_filter] at hmem
    exact hno c hmem.1 rfl
  · intro c _ hno hmem
    rw [List.mem_filter] at hmem
    obtain ⟨_, hany⟩ := hmem
    simp only [List.any_eq_true, decide_eq_true_eq] at hany
    obtain ⟨x, hx, hn⟩ := hany
    exact hno x hx hn.symm

/-- C17. In `importableColumns` neither `[0]` lookup meets an empty list: for
every column of the computed `both` list, the destination columns of that
name and the source columns of that name are each at least one, so both index
expressions return a column and the function never panics, whatever the
tables hold (duplicate names and empty tables included). -/
theorem importableColumns_lookups_safe (destinationTable sourceTable : Table) :
    (∀ column, column ∈ filterColumns destinationTable.Columns
        sourceTable.containsColumnWithSameName →
      (∃ d, firstColumn (filterColumns destinationTable.Columns
          fun c => column.Name = c.Name) = .ok d)
      ∧ (∃ s, firstColumn (filterColumns sourceTable.Columns
          fun c => column.Name = c.Name) = .ok s))
    ∧ (importableColumns destinationTable sourceTable).isPanic = false
    ∧ (importableColumns destinationTable sourceTable).isOk = true := by
  refine ⟨?_, ?_, ?_⟩
  · intro column h
    obtain ⟨h1, h2⟩ := lookups_nonempty destinationTable sourceTable column h
    exact ⟨firstColumn_ok _ h1, firstColumn_ok _ h2⟩
  · obtain ⟨logged, h⟩ := importableColumns_ok destinationTable sourceTable
    rw [h]; rfl
  · obtain ⟨logged, h⟩ := importableColumns_ok destinationTable sourceTable
    rw [h]; rfl

/-- C17 on tables with a duplicated column name: both lookups for the first
column of `both` return a column. -/
theorem importableColumns_lookups_safe_witness :
    (∃ d, firstColumn (filterColumns
        [(⟨"a", .STRING, [(.LENGTH, 5)]⟩ : Column), ⟨"b", .INTEGER, []⟩, ⟨"a", .STRING, []⟩]
        fun c => "a" = c.Name) = .ok d)
    ∧ (∃ s, firstColumn (filterColumns
        [(⟨"a", .STRING, [(.LENGTH, 10)]⟩ : Column), ⟨"c", .INTEGER, []⟩]
        fun c => "a" = c.Name) = .ok s) :=
  (importableColumns_lookups_safe
      ⟨"", "d", [⟨"a", .STRING, [(.LENGTH, 5)]⟩, ⟨"b", .INTEGER, []⟩, ⟨"a", .STRING, []⟩]⟩
      ⟨"", "s", [⟨"a", .STRING, [(.LENGTH, 10)]⟩, ⟨"c", .INTEGER, []⟩]⟩).1
    ⟨"a", .STRING, [(.LENGTH, 5)]⟩ (by decide)

/-! ### Values bound for a CSV record -/

theorem writeBufferLoop_eq :
    ∀ (line : List String) (done : List (Option String)),
      writeBufferLoop line done.length (done ++ List.replicate line.length Option.none)
        = done ++ line.map fun value => if value = "" then Option.none else some value := by
  intro line
  induction line with
  | nil => intro done; simp [writeBufferLoop]
  | cons value rest ih =>
    intro done
    by_cases h : value = ""
    · have := ih (done ++ [Option.none])
      simp only [List.length_append, List.length_singleton, List.append_assoc,
        List.singleton_append] at this
      simp [writeBufferLoop, h, List.replicate_succ, this]
    · have := ih (done ++ [some value])
      simp only [List.length_append, List.length_singleton, List.append_assoc,
        List.singleton_append] at this
      simp [writeBufferLoop, h, List.replicate_succ, this]

theorem writeBuffer_eq_map (line : List String) :
    writeBufferLoop line 0 (List.replicate line.length Option.none)
      = line.map fun value => if value = "" then Option.none else some value := by
  simpa using writeBufferLoop_eq line []

/-- C12. For every CSV record, the values `importPostgres` and `importSqlite3`
bind have the length of the record; the i-th value is nil exactly when the
i-th cell is the empty string, and a non-empty cell is bound as it is, so no
bound value is the empty string. -/
theorem writeBuffer_blank_is_null (line : List String) :
    importSqlite3WriteBuffer line = importPostgresWriteBuffer line
    ∧ (importPostgresWriteBuffer line).length = line.length
    ∧ (∀ i cell, line.get? i = some cell →
        ((importPostgresWriteBuffer line).get? i = some Option.none ↔ cell = "")
        ∧ (cell ≠ "" → (importPostgresWriteBuffer line).get? i = some (some cell)))
    ∧ some "" ∉ importPostgresWriteBuffer line := by
  have hm := writeBuffer_eq_map line
  refine ⟨rfl, ?_, ?_, ?_⟩
  · simp [importPostgresWriteBuffer, hm]
  · intro i cell hc
    simp only [importPostgresWriteBuffer, hm, List.get?_eq_getElem?, List.getElem?_map] at hc ⊢
    rw [hc]
    by_cases h : cell = ""
    · simp [h]
    · simp [h]
  · simp only [importPostgresWriteBuffer, hm, List.mem_map, not_exists, not_and]
    intro value _
    by_cases h : value = ""
    · simp [h]
    · simp [h]

/-- C12 on the record `a,,b`: the second value is nil, the others are the
cells. -/
theorem writeBuffer_blank_is_null_witness :
    importPostgresWriteBuffer ["a", "", "b"] = [some "a", Option.none, some "b"]
    ∧ ((importPostgresWriteBuffer ["a", "", "b"]).get? 1 = some Option.none ↔ "" = "") :=
  ⟨rfl, ((writeBuffer_blank_is_null ["a", "", "b"]).2.2.1 1 "" rfl).1⟩

/-! ### Names in unpacking errors -/

/-- C14 at its failing input, `AddHeader("X-Token")`: the builtin bound to
`AddHeader` hands the name `BasicAuth` to the unpacker, so the returned error
names `BasicAuth`; the same wrong count under `BasicAuth` gives the same
message. -/
theorem addHeader_error_names_BasicAuth :
    callPredeclared "AddHeader" Endpoint.zero ⟨fun s => s, fun e => e⟩ [.str "X-Token"] []
      = .error "BasicAuth: got 1 arguments, want 2"
    ∧ callPredeclared "BasicAuth" Endpoint.zero ⟨fun s => s, fun e => e⟩ [.str "X-Token"] []
      = .error "BasicAuth: got 1 arguments, want 2"
    ∧ callPredeclared "AddHeader" Endpoint.zero ⟨fun s => s, fun e => e⟩
        [.str "X-Token", .int 1] []
      = .error "BasicAuth: for parameter 2: got int, want string" :=
  ⟨rfl, rfl, rfl⟩

/-! ### Strategy of a resolved extract -/

/-- C15 at its failing input, the script `Table("orders")` read for table
`orders`: the call returns no error and a `TableExtract` whose strategy is
the empty string, which is none of Full, Incremental, ModifiedOnly. -/
theorem readTableExtractConfiguration_empty_strategy :
    readTableExtractConfiguration (.ok "db.port")
        (fun _ => execStmts [.expr (.table [.str "orders"] [])] [] ScriptState.init) "orders"
      = .ok ⟨⟨"", "", "", 0⟩, [], []⟩
    ∧ "" ≠ Full ∧ "" ≠ Incremental ∧ "" ≠ ModifiedOnly :=
  ⟨rfl, by decide, by decide, by decide⟩

/-! ### Strategy options -/

/-- C16 at its failing input, `GoBackHours = 24`: the table method gives the
one-character string of code point 24 for `HoursAgo`, the endpoint method
gives "24". -/
theorem strategyOpts_differ :
    (TableExtract.strategyOpts ⟨⟨"ModifiedOnly", "id", "updated_at", 24⟩, [], []⟩).HoursAgo
      = String.singleton (Char.ofNat 24)
    ∧ (Endpoint.strategyOpts
        { Endpoint.zero with LoadOptions := ⟨"ModifiedOnly", "id", "updated_at", 24⟩ }).HoursAgo
      = "24"
    ∧ TableExtract.strategyOpts ⟨⟨"ModifiedOnly", "id", "updated_at", 24⟩, [], []⟩
      ≠ Endpoint.strategyOpts
        { Endpoint.zero with LoadOptions := ⟨"ModifiedOnly", "id", "updated_at", 24⟩ } := by
  refine ⟨by decide, by decide, by decide⟩

/-! ### The call name in unpacking errors -/

theorem unpackPositional_error (fnname : String) :
    ∀ (args : List Value) (vars : List ParamKind) (i : Nat) (e : String),
      unpackPositional fnname i args vars = .error e → ∃ rest, e = fnname ++ ": " ++ rest := by
  intro args
  induction args with
  | nil => intro vars i e h; simp [unpackPositional] at h
  | cons a rest ih =>
    intro vars i e h
    cases vars with
    | nil => simp [unpackPositional] at h
    | cons p ps =>
      simp only [unpackPositional] at h
      cases h1 : unpackOneArg a p with
      | error e1 =>
        simp only [h1, Except.error.injEq] at h
        exact ⟨"for parameter " ++ toString (i + 1) ++ ": " ++ e1, by
          rw [← h]; apply String.ext; simp [String.data_append]⟩
      | ok v =>
        simp only [h1] at h
        cases h2 : unpackPositional fnname (i + 1) rest ps with
        | error e2 =>
          simp only [h2, Except.error.injEq] at h
          subst h
          exact ih ps (i + 1) e2 h2
        | ok vs => simp [h2] at h

theorem UnpackPositionalArgs_error (fnname : String) (args : List Value)
    (kwargs : List (String × Value)) (min : Nat) (vars : List ParamKind) (e : String)
    (h : UnpackPositionalArgs fnname args kwargs min vars = .error e) :
    ∃ rest, e = fnname ++ ": " ++ rest := by
  unfold UnpackPositionalArgs at h
  split at h
  · simp only [Except.error.injEq] at h
    exact ⟨"unexpected keyword arguments", by rw [← h]; apply String.ext; simp [String.data_append]⟩
  · split at h
    · simp only [Except.error.injEq] at h
      exact ⟨"got " ++ toString args.length ++ " arguments, want "
        ++ (if min < vars.length then "at least " else "") ++ toString min, by
        rw [← h]; apply String.ext; simp [String.data_append]⟩
    · split at h
      · simp only [Except.error.injEq] at h
        exact ⟨"got " ++ toString args.length ++ " arguments, want "
          ++ (if vars.length > min then "at most " else "") ++ toString vars.length, by
          rw [← h]; apply String.ext; simp [String.data_append]⟩
      · exact unpackPositional_error fnname args vars 0 e h

theorem unpackArgsPositional_error (fnname : String) :
    ∀ (args : List Value) (pairs : List (String × ParamKind)) (e : String),
      unpackArgsPositional fnname args pairs = .error e → ∃ rest, e = fnname ++ ": " ++ rest := by
  intro args
  induction args with
  | nil => intro pairs e h; simp [unpackArgsPositional] at h
  | cons a rest ih =>
    intro pairs e h
    cases pairs with
    | nil => simp [unpackArgsPositional] at h
    | cons np ps =>
      obtain ⟨n, p⟩ := np
      simp only [unpackArgsPositional] at h
      cases h1 : unpackOneArg a p with
      | error e1 =>
        simp only [h1, Except.error.injEq] at h
        exact ⟨"for parameter " ++ n ++ ": " ++ e1, by
          rw [← h]; apply String.ext; simp [String.data_append]⟩
      | ok v =>
        simp only [h1] at h
        cases h2 : unpackArgsPositional fnname rest ps with
        | error e2 =>
          simp only [h2, Except.error.injEq] at h
          subst h
          exact ih ps e2 h2
        | ok vs => simp [h2] at h

theorem unpackArgsKeywords_error (fnname : String) (pairs : List (String × ParamKind)) :
    ∀ (kwargs : List (String × Value)) (slots : List (Option Value)) (e : String),
      unpackArgsKeywords fnname pairs kwargs slots = .error e →
      ∃ rest, e = fnname ++ ": " ++ rest := by
  intro kwargs
  induction kwargs with
  | nil => intro slots e h; simp [unpackArgsKeywords] at h
  | cons kv rest ih =>
    intro slots e h
    obtain ⟨name, arg⟩ := kv
    simp only [unpackArgsKeywords] at h
    cases hf : findParam pairs name 0 with
    | none =>
      simp only [hf, Except.error.injEq] at h
      exact ⟨"unexpected keyword argument \"" ++ name ++ "\"", by
        rw [← h]; apply String.ext; simp [String.data_append]⟩
    | some jp =>
      obtain ⟨j, p⟩ := jp
      simp only [hf] at h
      split at h
      · simp only [Except.error.injEq] at h
        exact ⟨"got multiple values for keyword argument \"" ++ name ++ "\"", by
          rw [← h]; apply String.ext; simp [String.data_append]⟩
      · cases hu : unpackOneArg arg p with
        | error e1 =>
          simp only [hu, Except.error.injEq] at h
          exact ⟨"for parameter \"" ++ name ++ "\": " ++ e1, by
            rw [← h]; apply String.ext; simp [String.data_append]⟩
        | ok v =>
          simp only [hu] at h
          exact ih _ e h

theorem UnpackArgs_error (fnname : String) (args : List Value) (kwargs : List (String × Value))
    (pairs : List (String × ParamKind)) (e : String)
    (h : UnpackArgs fnname args kwargs pairs = .error e) :
    ∃ rest, e = fnname ++ ": " ++ rest := by
  unfold UnpackArgs at h
  split at h
  · simp only [Except.error.injEq] at h
    exact ⟨"got " ++ toString args.length ++ " arguments, want at most "
      ++ toString pairs.length, by rw [← h]; apply String.ext; simp [String.data_append]⟩
  · cases h0 : unpackArgsPositional fnname args pairs with
    | error e0 =>
      simp only [h0, Except.error.injEq] at h
      subst h
      exact unpackArgsPositional_error fnname args pairs e0 h0
    | ok slots =>
      simp only [h0] at h
      cases h1 : unpackArgsKeywords fnname pairs kwargs slots with
      | error e1 =>
        simp only [h1, Except.error.injEq] at h
        subst h
        exact unpackArgsKeywords_error fnname pairs kwargs slots e1 h1
      | ok slots1 =>
        simp only [h1] at h
        cases h2 : firstMissing pairs slots1 with
        | some n =>
          simp only [h2, Except.error.injEq] at h
          exact ⟨"missing argument for " ++ n, by
            rw [← h]; apply String.ext; simp [String.data_append]⟩
        | none => simp [h2] at h

theorem tableDefinitionLoop_no_error :
    ∀ (entries : List (Value × Value)) (m : List (String × String)) (e : String),
      tableDefinitionLoop entries m ≠ .error e := by
  intro entries
  induction entries with
  | nil => intro m e h; simp [tableDefinitionLoop] at h
  | cons kv rest ih =>
    intro m e h
    obtain ⟨k, v⟩ := kv
    cases k <;> cases v <;> simp [tableDefinitionLoop] at h
    exact ih _ e h

theorem errorHandlingLoop_error (host : Host) :
    ∀ (entries : List (Value × Value)) (m : List (String × Int)) (e : String),
      errorHandlingLoop host entries m = .error e →
      ∃ rest, e = host.prependStarlarkPositionToError
        ("ErrorHandling value not supported: " ++ rest) := by
  intro entries
  induction entries with
  | nil => intro m e h; simp [errorHandlingLoop] at h
  | cons kv rest ih =>
    intro m e h
    obtain ⟨k, v⟩ := kv
    simp only [errorHandlingLoop] at h
    cases ha : atoiOfValue v with
    | error e1 =>
      simp only [ha, Outcome.error.injEq] at h
      exact ⟨v.String, h.symm⟩
    | ok i =>
      simp only [ha] at h
      cases k <;> simp at h
      exact ih _ e h

theorem setLoadStrategy_error (te : TableExtract) (ts : Option Struct) (args : List Value)
    (kwargs : List (String × Value)) (msg : String)
    (h : te.setLoadStrategy ts args kwargs = .error msg) :
    ∃ rest, msg = "LoadStrategy: " ++ rest ∨ msg = "LoadStrategy(): " ++ rest := by
  cases args with
  | nil => simp [TableExtract.setLoadStrategy] at h
  | cons a rest =>
    cases a with
    | str s =>
      simp only [TableExtract.setLoadStrategy] at h
      split at h
      · rename_i e hu
        simp only [Outcome.error.injEq] at h
        subst h
        have : ∃ r, e = "LoadStrategy: " ++ r ∨ e = "LoadStrategy(): " ++ r := by
          split at hu
          · split at hu
            · rename_i e1 hp
              simp only [Except.error.injEq] at hu
              subst hu
              obtain ⟨r, hr⟩ := UnpackPositionalArgs_error _ _ _ _ _ _ hp
              exact ⟨r, Or.inl hr⟩
            · cases hu
          · split at hu
            · obtain ⟨r, hr⟩ := UnpackArgs_error _ _ _ _ _ hu
              exact ⟨r, Or.inl hr⟩
            · split at hu
              · obtain ⟨r, hr⟩ := UnpackArgs_error _ _ _ _ _ hu
                exact ⟨r, Or.inl hr⟩
              · simp only [Except.error.injEq] at hu
                exact ⟨"invalid strategy, allowed values: Full, ModifiedOnly, Incremental",
                  Or.inr (by rw [← hu]; decide)⟩
        exact this
      · split at h
        · rename_i e1 _
          simp only [Outcome.error.injEq] at h
          exact ⟨"go_back_hours error: " ++ e1, Or.inr (by
            rw [← h]; apply String.ext; simp [String.data_append])⟩
        · cases ts <;> simp [localTableStruct, Outcome.bind] at h
    | _ => simp [TableExtract.setLoadStrategy] at h

theorem positional_builtin_error {α : Type} (fnname : String) (args : List Value)
    (kwargs : List (String × Value)) (min : Nat) (vars : List ParamKind) (host : Host)
    (k : List Value → Outcome α) (msg : String) (hk : ∀ vs, k vs ≠ .error msg)
    (h : (match UnpackPositionalArgs fnname args kwargs min vars with
          | .error e => Outcome.error (host.prependStarlarkPositionToError e)
          | .ok vs => k vs) = .error msg) :
    ∃ rest, msg = host.prependStarlarkPositionToError (fnname ++ ": " ++ rest) := by
  cases hu : UnpackPositionalArgs fnname args kwargs min vars with
  | error e =>
    rw [hu] at h
    simp only [Outcome.error.injEq] at h
    obtain ⟨rest, hr⟩ := UnpackPositionalArgs_error _ _ _ _ _ _ hu
    exact ⟨rest, by rw [← h, hr]⟩
  | ok vs =>
    rw [hu] at h
    exact absurd h (hk vs)

/-- Every error returned by a DSL call other than `AddHeader` that comes from
argument unpacking starts with the name the call is exposed under, after the
position the endpoint builtins put in front; `LoadStrategy` and
`ErrorHandling` have, besides, errors of their own that start with
`LoadStrategy():` and `ErrorHandling value not supported:`.  Every error of
`AddHeader` starts with `BasicAuth:`. -/
theorem unpack_errors_name_the_call (endpoint : Endpoint) (host : Host) (st : ScriptState)
    (recv : Struct) (args : List Value) (kwargs : List (String × Value)) (msg : String) :
    (callPredeclared "Get" endpoint host args kwargs = .error msg →
      ∃ rest, msg = host.prependStarlarkPositionToError ("Get: " ++ rest))
    ∧ (callPredeclared "BasicAuth" endpoint host args kwargs = .error msg →
      ∃ rest, msg = host.prependStarlarkPositionToError ("BasicAuth: " ++ rest))
    ∧ (callPredeclared "Paginate" endpoint host args kwargs = .error msg →
      ∃ rest, msg = host.prependStarlarkPositionToError ("Paginate: " ++ rest))
    ∧ (callPredeclared "ResponseType" endpoint host args kwargs = .error msg →
      ∃ rest, msg = host.prependStarlarkPositionToError ("ResponseType: " ++ rest))
    ∧ (callPredeclared "TableDefinition" endpoint host args kwargs = .error msg →
      ∃ rest, msg = host.prependStarlarkPositionToError ("TableDefinition: " ++ rest))
    ∧ (callPredeclared "Transform" endpoint host args kwargs = .error msg →
      ∃ rest, msg = host.prependStarlarkPositionToError ("Transform: " ++ rest))
    ∧ (callPredeclared "ErrorHandling" endpoint host args kwargs = .error msg →
      ∃ rest, msg = host.prependStarlarkPositionToError ("ErrorHandling: " ++ rest)
        ∨ msg = host.prependStarlarkPositionToError
            ("ErrorHandling value not supported: " ++ rest))
    ∧ (callPredeclared "LoadStrategy" endpoint host args kwargs = .error msg →
      ∃ rest, msg = host.prependStarlarkPositionToError ("LoadStrategy: " ++ rest)
        ∨ msg = host.prependStarlarkPositionToError ("LoadStrategy(): " ++ rest))
    ∧ (recv.callMember st "LoadStrategy" args kwargs = .error msg →
      ∃ rest, msg = "LoadStrategy: " ++ rest ∨ msg = "LoadStrategy(): " ++ rest)
    ∧ (recv.callMember st "TransformColumn" args kwargs = .error msg →
      ∃ rest, msg = "TransformColumn: " ++ rest)
    ∧ (recv.callMember st "ComputeColumn" args kwargs = .error msg →
      ∃ rest, msg = "ComputeColumn: " ++ rest)
    ∧ (callPredeclared "AddHeader" endpoint host args kwargs = .error msg →
      ∃ rest, msg = host.prependStarlarkPositionToError ("BasicAuth: " ++ rest)) := by
  have member : ∀ (name : String) (r : TableExtract → Outcome (TableExtract × Struct)),
      (∀ te, st.heap.get? recv.target = some te →
        recv.callMember st name args kwargs
          = (r te).bind fun (x : TableExtract × Struct) =>
              Outcome.ok ({ st with heap := st.heap.set recv.target x.1 }, x.2)) →
      recv.callMember st name args kwargs = .error msg →
      ∃ te, r te = .error msg := by
    intro name r hr h
    cases hg : st.heap.get? recv.target with
    | none =>
      unfold Struct.callMember at h
      rw [hg] at h
      cases h
    | some te =>
      rw [hr te hg] at h
      refine ⟨te, ?_⟩
      cases hrt : r te with
      | ok x => rw [hrt] at h; cases h
      | panic m => rw [hrt] at h; cases h
      | error e =>
        rw [hrt] at h
        simp only [Outcome.bind, Outcome.error.injEq] at h
        rw [h]
  refine ⟨?_, ?_, ?_, ?_, ?_, ?_, ?_, ?_, ?_, ?_, ?_, ?_⟩
  · intro h
    exact positional_builtin_error "Get" args kwargs 1 _ host _ msg (by intro vs hc; cases hc) h
  · intro h
    exact positional_builtin_error "BasicAuth" args kwargs 2 _ host _ msg
      (by intro vs hc; cases hc) h
  · intro h
    exact positional_builtin_error "Paginate" args kwargs 1 _ host _ msg
      (by intro vs hc; cases hc) h
  · intro h
    exact positional_builtin_error "ResponseType" args kwargs 1 _ host _ msg
      (by intro vs hc; cases hc) h
  · intro h
    refine positional_builtin_error "TableDefinition" args kwargs 1 _ host _ msg ?_ h
    intro vs hc
    split at hc
    · rename_i entries _
      cases hl : tableDefinitionLoop entries [] with
      | ok m => rw [hl] at hc; cases hc
      | panic m => rw [hl] at hc; cases hc
      | error e => exact tableDefinitionLoop_no_error _ _ _ hl
    · cases hc
  · intro h
    exact positional_builtin_error "Transform" args kwargs 1 _ host _ msg
      (by intro vs hc; cases hc) h
  · intro h
    change Endpoint.setErrorHandling endpoint host args kwargs = .error msg at h
    unfold Endpoint.setErrorHandling at h
    cases hu : UnpackPositionalArgs "ErrorHandling" args kwargs 1 [.dict] with
    | error e =>
      rw [hu] at h
      simp only [Outcome.error.injEq] at h
      obtain ⟨rest, hr⟩ := UnpackPositionalArgs_error _ _ _ _ _ _ hu
      exact ⟨rest, Or.inl (by rw [← h, hr]; rfl)⟩
    | ok vs =>
      rw [hu] at h
      simp only [] at h
      split at h
      · rename_i entries _
        cases hl : errorHandlingLoop host entries [] with
        | ok m => rw [hl] at h; cases h
        | panic m => rw [hl] at h; cases h
        | error e =>
          rw [hl] at h
          simp only [Outcome.bind, Outcome.error.injEq] at h
          obtain ⟨rest, hr⟩ := errorHandlingLoop_error host _ _ _ hl
          exact ⟨rest, Or.inr (by rw [← h, hr])⟩
      · cases h
  · intro h
    change Endpoint.setLoadStrategy endpoint host args kwargs = .error msg at h
    rw [Endpoint.setLoadStrategy_eq_table endpoint host TableExtract.zero ⟨"", 0⟩] at h
    cases ht : TableExtract.zero.setLoadStrategy (some ⟨"", 0⟩) args kwargs with
    | ok x => rw [ht] at h; cases h
    | panic m => rw [ht] at h; cases h
    | error e =>
      rw [ht] at h
      simp only [Outcome.error.injEq] at h
      obtain ⟨rest, hr⟩ := setLoadStrategy_error _ _ _ _ _ ht
      refine ⟨rest, ?_⟩
      rcases hr with hr | hr
      · exact Or.inl (by rw [← h, hr])
      · exact Or.inr (by rw [← h, hr])
  · intro h
    obtain ⟨te, hte⟩ := member "LoadStrategy"
      (fun te => te.setLoadStrategy st.tableStruct args kwargs)
      (by intro te hg; unfold Struct.callMember; rw [hg]; rfl) h
    exact setLoadStrategy_error _ _ _ _ _ hte
  · intro h
    obtain ⟨te, hte⟩ := member "TransformColumn"
      (fun te => te.addColumnTransform st.tableStruct args kwargs)
      (by intro te hg; unfold Struct.callMember; rw [hg]; rfl) h
    unfold TableExtract.addColumnTransform at hte
    cases hu : UnpackPositionalArgs "TransformColumn" args kwargs 2 [.goString, .function] with
    | error e =>
      rw [hu] at hte
      simp only [Outcome.error.injEq] at hte
      obtain ⟨rest, hr⟩ := UnpackPositionalArgs_error _ _ _ _ _ _ hu
      exact ⟨rest, by rw [← hte, hr]; rfl⟩
    | ok vs =>
      rw [hu] at hte
      simp only [] at hte
      split at hte
      · cases hte
      · cases hts : st.tableStruct <;> rw [hts] at hte <;>
          simp [localTableStruct, Outcome.bind] at hte
  · intro h
    obtain ⟨te, hte⟩ := member "ComputeColumn"
      (fun te => te.addComputedColumn st.tableStruct args kwargs)
      (by intro te hg; unfold Struct.callMember; rw [hg]; rfl) h
    unfold TableExtract.addComputedColumn at hte
    cases hu : UnpackPositionalArgs "ComputeColumn" args kwargs 2
        [.goString, .function, .goString] with
    | error e =>
      rw [hu] at hte
      simp only [Outcome.error.injEq] at hte
      obtain ⟨rest, hr⟩ := UnpackPositionalArgs_error _ _ _ _ _ _ hu
      exact ⟨rest, by rw [← hte, hr]; rfl⟩
    | ok vs =>
      rw [hu] at hte
      simp only [] at hte
      split at hte
      · cases hte
      · cases hts : st.tableStruct <;> rw [hts] at hte <;>
          simp [localTableStruct, Outcome.bind] at hte
  · intro h
    exact positional_builtin_error "BasicAuth" args kwargs 2 _ host _ msg
      (by intro vs hc; cases hc) h

/-- An endpoint that `readEndpointConfiguration` returns has a load strategy
that is not empty, as long as the constant `defaultLoadStrategy` is not
empty: the strategy of the script where it set one, the default
otherwise. -/
theorem readEndpointConfiguration_strategy_set (portFile : Except String String)
    (execFile : String → Outcome (List (String × Value) × Endpoint))
    (validate : Endpoint → Option String) (defaultLoadStrategy : String) (e : Endpoint)
    (hd : defaultLoadStrategy ≠ "")
    (h : readEndpointConfiguration portFile execFile validate defaultLoadStrategy = .ok e) :
    e.LoadOptions.Strategy ≠ "" := by
  unfold readEndpointConfiguration at h
  cases portFile with
  | error m => cases h
  | ok file =>
    simp only [] at h
    cases hx : execFile file with
    | error m => rw [hx] at h; cases h
    | panic m => rw [hx] at h; cases h
    | ok r =>
      obtain ⟨configuration, endpoint⟩ := r
      rw [hx] at h
      simp only [Outcome.bind] at h
      split at h
      · cases h
      · split at h
        · cases h
          exact hd
        · rename_i hne
          cases h
          exact hne

/-- A script that sets no load strategy: the endpoint comes back with the
default. -/
theorem readEndpointConfiguration_strategy_set_witness :
    "Full" ≠ ""
    ∧ readEndpointConfiguration (.ok "port.star") (fun _ => .ok ([], Endpoint.zero))
        (fun _ => Option.none) "Full"
      = .ok { Endpoint.zero with
              LoadOptions := { Endpoint.zero.LoadOptions with Strategy := "Full" } }
    ∧ ({ Endpoint.zero with
         LoadOptions := { Endpoint.zero.LoadOptions with Strategy := "Full" } }
        : Endpoint).LoadOptions.Strategy ≠ "" :=
  ⟨by decide, rfl,
   readEndpointConfiguration_strategy_set (.ok "port.star") (fun _ => .ok ([], Endpoint.zero))
     (fun _ => Option.none) "Full" _ (by decide) rfl⟩

/-- The two `strategyOpts` methods copy `Strategy`, `PrimaryKey` and
`ModifiedAtColumn` of the load options alike; the endpoint method renders
`GoBackHours` as its decimal numeral (24 gives `24`), the table method as the
character of that code point. -/
theorem strategyOpts_copied_fields (o : LoadOptions) (te : TableExtract) (ep : Endpoint) :
    ({ te with LoadOptions := o }).strategyOpts.Strategy
        = ({ ep with LoadOptions := o }).strategyOpts.Strategy
    ∧ ({ te with LoadOptions := o }).strategyOpts.PrimaryKey
        = ({ ep with LoadOptions := o }).strategyOpts.PrimaryKey
    ∧ ({ te with LoadOptions := o }).strategyOpts.ModifiedAtColumn
        = ({ ep with LoadOptions := o }).strategyOpts.ModifiedAtColumn
    ∧ ({ ep with LoadOptions := o }).strategyOpts.HoursAgo = toString o.GoBackHours
    ∧ ({ ep with LoadOptions := { o with GoBackHours := 24 } }).strategyOpts.HoursAgo = "24"
    ∧ ({ te with LoadOptions := o }).strategyOpts.HoursAgo = runeString o.GoBackHours :=
  ⟨rfl, rfl, rfl, rfl, rfl, rfl⟩

/-! ### The statement the test expects -/

set_option maxRecDepth 20000 in
/-- With `squish` the join of `strings.Fields` by one blank, the statement the
test of `GenerateCreateTableStatement` expects keeps a blank after the
opening bracket and before the closing one; the one-line statement without
those blanks is its own normal form, so the two differ after `squish`. -/
theorem expectedWidgetsStatement_squish :
    squish expectedWidgetsStatement
      = "CREATE TABLE source_widgets ( id INT8, name VARCHAR(255), active BOOLEAN, price DECIMAL(10,2) );"
    ∧ squish expectedWidgetsStatement
      ≠ squish "CREATE TABLE source_widgets (id INT8, name VARCHAR(255), active BOOLEAN, price DECIMAL(10,2));"
    ∧ squish "CREATE TABLE source_widgets (id INT8, name VARCHAR(255), active BOOLEAN, price DECIMAL(10,2));"
      = "CREATE TABLE source_widgets (id INT8, name VARCHAR(255), active BOOLEAN, price DECIMAL(10,2));" := by
  decide

end Teleport
